import Mathlib

/-! # Detector contract of the credential scanner

Shallow embedding of the four detectors under `pkg/detectors`
(`accuweather`, `alchemy`, `github_old`, `urlscan`) together with the part of
Go's `regexp`, `strings` and `net/http` behaviour their `FromData` methods
rely on.

Text is modelled as the sequence of runes Go's `regexp` decodes from the
chunk (`List Char`).  The remote service is an explicit state-passing
transition `Do : σ → Request → (error or response) × σ`, so that a service may
answer the same request differently at different times.
-/

set_option autoImplicit false

/-- Text: the runes of a Go `string` or `[]byte`. -/
abbrev Text := List Char

/-! ## Go `regexp`: the operators used by the detectors' patterns -/

namespace regexp

/-- Code points of the runes equal to `c` under Unicode simple case folding,
as enumerated by Go's `unicode.SimpleFold`, for the orbits that meet ASCII: a
letter and its other case, plus U+212A (Kelvin sign) for `k` and U+017F
(long s) for `s`. Every other rune is returned alone: the patterns below only
contain ASCII literals and ASCII ranges, so no other orbit can reach them. -/
def simpleFoldOrbit (c : Char) : List Nat :=
  if c.toNat = 0x6B ∨ c.toNat = 0x4B ∨ c.toNat = 0x212A then [0x6B, 0x4B, 0x212A]
  else if c.toNat = 0x73 ∨ c.toNat = 0x53 ∨ c.toNat = 0x17F then [0x73, 0x53, 0x17F]
  else if 0x61 ≤ c.toNat ∧ c.toNat ≤ 0x7A then [c.toNat, c.toNat - 32]
  else if 0x41 ≤ c.toNat ∧ c.toNat ≤ 0x5A then [c.toNat, c.toNat + 32]
  else [c.toNat]

/-- Membership of a code point in a list of inclusive ranges. -/
def inRanges (ranges : List (Char × Char)) (n : Nat) : Bool :=
  ranges.any (fun r => decide (r.1.toNat ≤ n ∧ n ≤ r.2.toNat))

/-- A character class `[...]` or `[^...]`, with the `(?i)` flag in force where
it was parsed. A literal rune is the class of the one range `(c, c)`. -/
structure RuneClass where
  ranges : List (Char × Char)
  negated : Bool
  foldCase : Bool
deriving Repr

/-- Whether the class accepts the rune: under `(?i)` the ranges are closed
under simple folding before the negation is applied. -/
def RuneClass.accepts (cl : RuneClass) (c : Char) : Bool :=
  (if cl.foldCase then (simpleFoldOrbit c).any (inRanges cl.ranges)
   else inRanges cl.ranges c.toNat) != cl.negated

/-- Regular expressions with one capture group. -/
inductive Re where
  /-- The empty expression. -/
  | empty : Re
  /-- One rune of a class. -/
  | rune : RuneClass → Re
  /-- Concatenation. -/
  | cat : Re → Re → Re
  /-- Alternation, the left branch preferred. -/
  | alt : Re → Re → Re
  /-- Greedy `+` over a class. -/
  | plus : RuneClass → Re
  /-- The capture group. -/
  | group : Re → Re
  /-- The ASCII word boundary `\b`. -/
  | wordBoundary : Re
deriving Repr

/-- Literal string, rune by rune. -/
def Re.lit (foldCase : Bool) : Text → Re
  | [] => Re.empty
  | c :: cs => Re.cat (Re.rune ⟨[(c, c)], false, foldCase⟩) (Re.lit foldCase cs)

/-- Alternation of a list of expressions, `a|b|c`, none for the empty list. -/
def Re.alts : List Re → Re
  | [] => Re.rune ⟨[], false, false⟩
  | [r] => r
  | r :: rs => Re.alt r (Re.alts rs)

/-- Exact repetition `r{n}`. -/
def Re.times (r : Re) : Nat → Re
  | 0 => Re.empty
  | n + 1 => Re.cat r (Re.times r n)

/-- Greedy bounded repetition `r{0,n}`, that is `(r(r(...)?)?)?`. -/
def Re.upTo (r : Re) : Nat → Re
  | 0 => Re.empty
  | n + 1 => Re.alt (Re.cat r (Re.upTo r n)) Re.empty

/-- A position of the matcher in the haystack: the rune before it, the runes
from it on, and the text captured by the group so far. -/
structure Pos where
  prev : Option Char
  rest : Text
  cap : Option Text
deriving Repr, DecidableEq

/-- ASCII word rune `[0-9A-Za-z_]`. -/
def isWordRune (c : Char) : Bool :=
  inRanges [('0', '9'), ('A', 'Z'), ('a', 'z'), ('_', '_')] c.toNat

/-- Condition of `\b`: a word rune on exactly one side. -/
def atWordBoundary (s : Pos) : Bool :=
  (match s.prev with | some c => isWordRune c | none => false)
    != (match s.rest with | c :: _ => isWordRune c | [] => false)

/-- Greedy `cl+` from a position, then the continuation: one more rune is
tried before the continuation is. -/
def runPlus (cl : RuneClass) (k : Pos → Option Pos) (cap : Option Text) :
    Option Char → Text → Option Pos
  | _, [] => none
  | _, c :: cs =>
    if cl.accepts c then
      match runPlus cl k cap (some c) cs with
      | some r => some r
      | none => k ⟨some c, cs, cap⟩
    else none

/-- Backtracking matcher in continuation-passing style: the first success in
preference order, which is the leftmost-first match of Go's `regexp`. -/
def Re.run : Re → Pos → (Pos → Option Pos) → Option Pos
  | Re.empty, s, k => k s
  | Re.rune cl, s, k =>
    match s.rest with
    | [] => none
    | c :: cs => if cl.accepts c then k ⟨some c, cs, s.cap⟩ else none
  | Re.cat a b, s, k => Re.run a s (fun s1 => Re.run b s1 k)
  | Re.alt a b, s, k =>
    match Re.run a s k with
    | some r => some r
    | none => Re.run b s k
  | Re.plus cl, s, k => runPlus cl k s.cap s.prev s.rest
  | Re.group a, s, k =>
    Re.run a s (fun s1 =>
      k ⟨s1.prev, s1.rest, some (s.rest.take (s.rest.length - s1.rest.length))⟩)
  | Re.wordBoundary, s, k => if atWordBoundary s then k s else none

/-- The loop of `(*Regexp).allMatches`: search from the current position for
the leftmost match, deliver `[whole, group 1]`, continue after it. An empty
match is delivered unless it abuts the previous match, and the search then
moves one rune on. Positions are identified by the number of runes left. -/
def allMatches (re : Re) : Nat → Option Char → Text → Option Nat → List (List Text)
  | 0, _, _, _ => []
  | fuel + 1, prev, rest, prevMatchEnd =>
    match Re.run re ⟨prev, rest, none⟩ some with
    | some e =>
      let sub := [rest.take (rest.length - e.rest.length), e.cap.getD []]
      if e.rest.length = rest.length then
        (if prevMatchEnd = some rest.length then [] else [sub])
          ++ (if rest = [] then []
              else allMatches re fuel rest.head? rest.tail (some rest.length))
      else sub :: allMatches re fuel e.prev e.rest (some e.rest.length)
    | none =>
      if rest = [] then [] else allMatches re fuel rest.head? rest.tail prevMatchEnd

/-- `(*Regexp).FindAllStringSubmatch(s, -1)` and `FindAllSubmatch(b, -1)`. -/
def FindAllStringSubmatch (re : Re) (s : Text) : List (List Text) :=
  allMatches re (s.length + 1) none s none

end regexp

/-! ## Go `strings`, `unicode` and `net/http` -/

namespace unicode

/-- `unicode.IsSpace`: the runes with the White_Space property. -/
def IsSpace (c : Char) : Bool :=
  regexp.inRanges
    [(Char.ofNat 0x09, Char.ofNat 0x0D), (' ', ' '), (Char.ofNat 0x85, Char.ofNat 0x85),
     (Char.ofNat 0xA0, Char.ofNat 0xA0), (Char.ofNat 0x1680, Char.ofNat 0x1680),
     (Char.ofNat 0x2000, Char.ofNat 0x200A), (Char.ofNat 0x2028, Char.ofNat 0x2029),
     (Char.ofNat 0x202F, Char.ofNat 0x202F), (Char.ofNat 0x205F, Char.ofNat 0x205F),
     (Char.ofNat 0x3000, Char.ofNat 0x3000)] c.toNat

end unicode

namespace strings

/-- `strings.TrimSpace` and `bytes.TrimSpace`: leading and trailing white space
removed. -/
def TrimSpace (s : Text) : Text :=
  ((s.dropWhile unicode.IsSpace).reverse.dropWhile unicode.IsSpace).reverse

/-- Two runes equal under simple case folding (one rune of
`strings.EqualFold`): `a` is in the folding orbit of `b`. Exact whenever one
of the two is ASCII. -/
def equalFoldRune (a b : Char) : Bool :=
  (regexp.simpleFoldOrbit b).contains a.toNat

/-- Whether `s` starts with `sub`, runes compared under simple case folding. -/
def startsWithFold : Text → Text → Bool
  | [], _ => true
  | _ :: _, [] => false
  | a :: sub, b :: s => equalFoldRune a b && startsWithFold sub s

/-- Case-insensitive `strings.Contains`: `sub` occurs in `s`, runes compared
under simple case folding. -/
def containsFold (sub : Text) : Text → Bool
  | [] => startsWithFold sub []
  | c :: cs => startsWithFold sub (c :: cs) || containsFold sub cs

end strings

/-- A Go `error` value, by its message; `nil` is `none` of `Option GoError`. -/
abbrev GoError := String

namespace http

/-- The fields of `http.Request` the detectors set. -/
structure Request where
  Method : Text
  URL : Text
  Header : List (Text × Text)
deriving DecidableEq, Repr

/-- The fields of `http.Response` the detectors read. -/
structure Response where
  StatusCode : Int
  Body : Text
  Header : List (Text × Text)
deriving DecidableEq, Repr

/-- `Header.Set` and, on a header without that key, `Header.Add`. -/
def Request.setHeader (req : Request) (key value : Text) : Request :=
  { req with Header := (key, value) :: req.Header.filter (fun kv => kv.1 != key) }

/-- `Header.Get`: the first value under the key (keys compared ignoring
case, as after canonicalisation), `""` when there is none. -/
def Response.getHeader (res : Response) (key : Text) : Text :=
  match res.Header.find? (fun kv => kv.1.length == key.length && strings.startsWithFold key kv.1) with
  | some kv => kv.2
  | none => []

/-- `http.StatusUnauthorized`. -/
def StatusUnauthorized : Int := 401

end http

/-! ## Package `detectors`: the shared declarations -/

namespace github_old

/-- The JSON answer of `GET /user`. -/
structure userRes where
  Login : Text
  Type' : Text
  SiteAdmin : Bool
  Name : Text
  Company : Text
  UserURL : Text
  LdapDN : Text
deriving DecidableEq, Repr

end github_old

namespace detectors

/-- The values of `detectorspb.DetectorType` used by the four detectors. -/
inductive DetectorType where
  | Accuweather
  | Alchemy
  | Github
  | Urlscan
deriving DecidableEq, Repr

/-- The finding, `detectors.Result`, with the fields the detectors use. -/
structure Result where
  DetectorType : DetectorType
  Raw : Text
  Verified : Bool
  ExtraData : List (Text × Text)
  VerificationError : Option GoError
deriving DecidableEq, Repr

/-- Assignment `m[key] = value` on a Go map kept as an association list. -/
def mapSet (m : List (Text × Text)) (key value : Text) : List (Text × Text) :=
  (key, value) :: m.filter (fun kv => kv.1 != key)

/-- Lookup `m[key]` with presence. -/
def mapGet (m : List (Text × Text)) (key : Text) : Option Text :=
  (m.find? (fun kv => kv.1 == key)).map (fun kv => kv.2)

/-- What the detectors take from outside the repository's sources: the
remote service behind `(*http.Client).Do` as a transition on a state `σ`,
the failure of `url.Parse` inside `http.NewRequestWithContext`, the JSON
decoder applied to a response body, and the two tables behind the
false-positive filter. -/
structure Env (σ : Type) where
  /-- `(*http.Client).Do`: a transport error or a response, and the next
  state of the world. -/
  Do : σ → http.Request → Except GoError http.Response × σ
  /-- The error of `url.Parse` on a URL, `none` when it parses. -/
  urlError : Text → Option GoError
  /-- `json.NewDecoder(res.Body).Decode(&userResponse)`. -/
  decodeUser : Text → Except GoError github_old.userRes
  /-- `detectors.DefaultFalsePositives`. -/
  DefaultFalsePositives : List Text
  /-- The randomness heuristic of the false-positive filter. -/
  looksRandom : Text → Bool

/-- `http.NewRequestWithContext(ctx, method, url, nil)` with a valid method
and a live context: it fails exactly when the URL does not parse. -/
def NewRequestWithContext {σ : Type} (env : Env σ) (method url : Text) :
    Except GoError http.Request :=
  match env.urlError url with
  | some e => Except.error e
  | none => Except.ok { Method := method, URL := url, Header := [] }

/-- Modelled from the spec: `detectors.PrefixRegex` is declared in
`pkg/detectors`, outside the sources at hand. Section 4.1: the prefix context
requires the credential-type name or one of its aliases, case-insensitively,
within a bounded lookback window of the credential body; the window is the
40 runes of `(?i)(?:k1|k2|...)(?:.|[\n\r]){0,40}`. The `(?i)` flag stays in
force for what the caller appends, whence the `foldCase` of the detectors'
own classes. -/
def PrefixRegex (keywords : List Text) : regexp.Re :=
  regexp.Re.cat (regexp.Re.alts (keywords.map (regexp.Re.lit true)))
    (regexp.Re.upTo (regexp.Re.rune ⟨[], true, true⟩) 40)

/-- Modelled from the spec: `detectors.IsKnownFalsePositive` is declared in
`pkg/detectors`, outside the sources at hand. Section 4.2: the candidate is
rejected when it hits a phrase of the word list, compared case-insensitively,
and, where the call site asks for the randomness stage, when it does not look
random enough. -/
def IsKnownFalsePositive {σ : Type} (env : Env σ) (candidate : Text)
    (falsePositives : List Text) (wordCheck : Bool) : Bool :=
  falsePositives.any (fun fp => strings.containsFold fp candidate)
    || (wordCheck && !env.looksRandom candidate)

/-- Modelled from the spec: `(*Result).SetVerificationError` is declared in
`pkg/detectors`, outside the sources at hand. Section 4.5: an error of the
verification is attached to the finding; without one the finding is left as it
is. -/
def Result.SetVerificationError (r : Result) (err : Option GoError) (_secret : Text) :
    Result :=
  match err with
  | some e => { r with VerificationError := some e }
  | none => r

/-- Modelled from the spec: `EndpointSetter.Endpoints` is declared in
`pkg/detectors`, outside the sources at hand. Section 4.4: the operator's
override endpoints are used exclusively when there are any, otherwise the
single built-in default. -/
def Endpoints (configured : List Text) (defaultEndpoint : Text) : List Text :=
  if configured.isEmpty then [defaultEndpoint] else configured

/-- The loop `for _, match := range matches { ... }` of every `FromData`:
the body either leaves the iteration (`continue`, `none`) or reaches
`results = append(results, s1)`. -/
def forEachMatch {σ : Type} (body : σ → List Text → Option Result × σ) :
    σ → List (List Text) → List Result → List Result × σ
  | w, [], results => (results, w)
  | w, m :: ms, results =>
    match body w m with
    | (some s1, w1) => forEachMatch body w1 ms (results ++ [s1])
    | (none, w1) => forEachMatch body w1 ms results

/-- Whether a status code is in 200..299. -/
def is2xx (status : Int) : Bool :=
  decide (200 ≤ status ∧ status < 300)

end detectors

/-! ## accuweather -/

namespace accuweather
open regexp detectors

/-- `keyPat`: `PrefixRegex(["accuweather"])` followed by
`([a-z0-9A-Z\%]{35})\b`. -/
def keyPat : Re :=
  Re.cat (PrefixRegex ["accuweather".toList])
    (Re.cat
      (Re.group (Re.times
        (Re.rune ⟨[('a', 'z'), ('0', '9'), ('A', 'Z'), ('%', '%')], false, true⟩) 35))
      Re.wordBoundary)

def Keywords : List Text := ["accuweather".toList]

/-- The URL of the verification request. -/
def verifyURL (resMatch : Text) : Text :=
  "https://dataservice.accuweather.com/locations/v1/cities/autocomplete?apikey=".toList
    ++ resMatch ++ "&q=----&language=en-us".toList

def verifyAccuweather {σ : Type} (env : Env σ) (w : σ) (resMatch : Text) :
    (Bool × Option GoError) × σ :=
  match NewRequestWithContext env "GET".toList (verifyURL resMatch) with
  | Except.error err => ((false, some err), w)
  | Except.ok req =>
    match env.Do w req with
    | (Except.error err, w1) => ((false, some err), w1)
    | (Except.ok res, w1) =>
      if 200 ≤ res.StatusCode ∧ res.StatusCode < 300 then ((true, none), w1)
      else if res.StatusCode ≠ http.StatusUnauthorized then
        ((false, some ("unexpected HTTP response status " ++ toString res.StatusCode)), w1)
      else ((false, none), w1)

/-- The body of the loop of `FromData`. -/
def candidate {σ : Type} (env : Env σ) (verify : Bool) (w : σ) (m : List Text) :
    Option Result × σ :=
  if m.length ≠ 2 then (none, w)
  else
    let resMatch := strings.TrimSpace (m.getD 1 [])
    let s1 : Result :=
      { DetectorType := DetectorType.Accuweather, Raw := resMatch, Verified := false,
        ExtraData := [], VerificationError := none }
    let (s1, w1) :=
      if verify then
        let (out, w1) := verifyAccuweather env w resMatch
        (({ s1 with Verified := out.1 }).SetVerificationError out.2 resMatch, w1)
      else (s1, w)
    if !s1.Verified && IsKnownFalsePositive env resMatch env.DefaultFalsePositives true then
      (none, w1)
    else (some s1, w1)

def FromData {σ : Type} (env : Env σ) (verify : Bool) (w : σ) (data : Text) :
    (List Result × Option GoError) × σ :=
  let found := forEachMatch (candidate env verify) w (FindAllStringSubmatch keyPat data) []
  ((found.1, none), found.2)

end accuweather

/-! ## alchemy -/

namespace alchemy
open regexp detectors

/-- `keyPat`: `PrefixRegex(["alchemy"])` followed by
`\b([0-9a-zA-Z]{23}_[0-9a-zA-Z]{8})\b`. -/
def keyPat : Re :=
  Re.cat (PrefixRegex ["alchemy".toList])
    (Re.cat Re.wordBoundary
      (Re.cat
        (Re.group
          (Re.cat (Re.times (Re.rune ⟨[('0', '9'), ('a', 'z'), ('A', 'Z')], false, true⟩) 23)
            (Re.cat (Re.rune ⟨[('_', '_')], false, true⟩)
              (Re.times (Re.rune ⟨[('0', '9'), ('a', 'z'), ('A', 'Z')], false, true⟩) 8))))
        Re.wordBoundary))

def Keywords : List Text := ["alchemy".toList]

/-- The URL of the verification request. -/
def verifyURL (resMatch : Text) : Text :=
  "https://eth-mainnet.g.alchemy.com/v2/".toList ++ resMatch
    ++ "/getNFTs/?owner=vitalik.eth".toList

/-- The block `if verify { ... }` of `FromData` (lines 49 to 71) on the
finding `s1`: `none` when the request cannot be built and the iteration is
left by `continue`. -/
def verifyInline {σ : Type} (env : Env σ) (w : σ) (resMatch : Text) (s1 : Result) :
    Option (Result × σ) :=
  match NewRequestWithContext env "GET".toList (verifyURL resMatch) with
  | Except.error _ => none
  | Except.ok req =>
    match env.Do w req with
    | (Except.ok res, w1) =>
      if 200 ≤ res.StatusCode ∧ res.StatusCode < 300 then some ({ s1 with Verified := true }, w1)
      else if res.StatusCode = 401 then some (s1, w1)
      else
        let err : GoError := "unexpected HTTP response status " ++ toString res.StatusCode
        some ({ s1 with VerificationError := some err }, w1)
    | (Except.error err, w1) => some ({ s1 with VerificationError := some err }, w1)

/-- The body of the loop of `FromData`. -/
def candidate {σ : Type} (env : Env σ) (verify : Bool) (w : σ) (m : List Text) :
    Option Result × σ :=
  if m.length ≠ 2 then (none, w)
  else
    let resMatch := strings.TrimSpace (m.getD 1 [])
    let s1 : Result :=
      { DetectorType := DetectorType.Alchemy, Raw := resMatch, Verified := false,
        ExtraData := [], VerificationError := none }
    match (if verify then verifyInline env w resMatch s1 else some (s1, w)) with
    | none => (none, w)
    | some (s1, w1) =>
      if !s1.Verified && IsKnownFalsePositive env resMatch env.DefaultFalsePositives true then
        (none, w1)
      else (some s1, w1)

def FromData {σ : Type} (env : Env σ) (verify : Bool) (w : σ) (data : Text) :
    (List Result × Option GoError) × σ :=
  let found := forEachMatch (candidate env verify) w (FindAllStringSubmatch keyPat data) []
  ((found.1, none), found.2)

end alchemy

/-! ## urlscan -/

namespace urlscan
open regexp detectors

/-- `keyPat`: `PrefixRegex(["urlscan"])` followed by `\b([a-z0-9-]{36})\b`. -/
def keyPat : Re :=
  Re.cat (PrefixRegex ["urlscan".toList])
    (Re.cat Re.wordBoundary
      (Re.cat
        (Re.group (Re.times (Re.rune ⟨[('a', 'z'), ('0', '9'), ('-', '-')], false, true⟩) 36))
        Re.wordBoundary))

def Keywords : List Text := ["urlscan".toList]

/-- The verification request once built: `GET https://urlscan.io/user/quotas`
with the candidate in the `API-Key` header. -/
def verifyRequest (req : http.Request) (resMatch : Text) : http.Request :=
  req.setHeader "API-Key".toList resMatch

/-- The body of the loop of `FromData`. -/
def candidate {σ : Type} (env : Env σ) (verify : Bool) (w : σ) (m : List Text) :
    Option Result × σ :=
  if m.length ≠ 2 then (none, w)
  else
    let resMatch := strings.TrimSpace (m.getD 1 [])
    let s1 : Result :=
      { DetectorType := DetectorType.Urlscan, Raw := resMatch, Verified := false,
        ExtraData := [], VerificationError := none }
    if verify then
      match NewRequestWithContext env "GET".toList "https://urlscan.io/user/quotas".toList with
      | Except.error _ => (none, w)
      | Except.ok req =>
        let (res, w1) := env.Do w (verifyRequest req resMatch)
        let ok :=
          match res with
          | Except.ok r => decide (200 ≤ r.StatusCode ∧ r.StatusCode < 300)
          | Except.error _ => false
        if ok then (some { s1 with Verified := true }, w1)
        else if IsKnownFalsePositive env resMatch env.DefaultFalsePositives true then (none, w1)
        else (some s1, w1)
    else (some s1, w)

def FromData {σ : Type} (env : Env σ) (verify : Bool) (w : σ) (data : Text) :
    (List Result × Option GoError) × σ :=
  let found := forEachMatch (candidate env verify) w (FindAllStringSubmatch keyPat data) []
  ((found.1, none), found.2)

end urlscan

/-! ## github_old -/

namespace github_old
open regexp detectors

/-- The scanner: the embedded `detectors.EndpointSetter` with the endpoints the
operator configured, none by default. -/
structure Scanner where
  endpoints : List Text
deriving DecidableEq, Repr

def Version : Nat := 1

def DefaultEndpoint : Text := "https://api.github.com".toList

/-- `keyPat`:
`(?i)(?:github|gh|pat|token)[^\.].{0,40}[ =:'"]+([a-f0-9]{40})\b`. -/
def keyPat : Re :=
  Re.cat
    (Re.alts [Re.lit true "github".toList, Re.lit true "gh".toList, Re.lit true "pat".toList,
      Re.lit true "token".toList])
    (Re.cat (Re.rune ⟨[('.', '.')], true, true⟩)
      (Re.cat (Re.upTo (Re.rune ⟨[(Char.ofNat 10, Char.ofNat 10)], true, true⟩) 40)
        (Re.cat
          (Re.plus ⟨[(' ', ' '), ('=', '='), (':', ':'), (Char.ofNat 39, Char.ofNat 39),
            (Char.ofNat 34, Char.ofNat 34)], false, true⟩)
          (Re.cat (Re.group (Re.times (Re.rune ⟨[('a', 'f'), ('0', '9')], false, true⟩) 40))
            Re.wordBoundary))))

def Keywords : List Text :=
  ["github".toList, "gh".toList, "pat".toList, "token".toList]

/-- The request sent to one endpoint, once built. -/
def verifyRequest (req : http.Request) (token : Text) : http.Request :=
  (req.setHeader "Content-Type".toList "application/json; charset=utf-8".toList).setHeader
    "Authorization".toList ("token ".toList ++ token)

/-- The assignments to `s1` after a decoded answer of an endpoint. -/
def recordUser (s1 : Result) (userResponse : userRes) (res : http.Response) : Result :=
  let s1 := { s1 with Verified := true }
  let s1 := { s1 with ExtraData := mapSet s1.ExtraData "username".toList userResponse.Login }
  let s1 := { s1 with ExtraData := mapSet s1.ExtraData "url".toList userResponse.UserURL }
  let s1 := { s1 with ExtraData := mapSet s1.ExtraData "account_type".toList userResponse.Type' }
  let s1 :=
    if userResponse.SiteAdmin then
      { s1 with ExtraData := mapSet s1.ExtraData "site_admin".toList "true".toList }
    else s1
  let s1 :=
    if userResponse.Name ≠ [] then
      { s1 with ExtraData := mapSet s1.ExtraData "name".toList userResponse.Name }
    else s1
  let s1 :=
    if userResponse.Company ≠ [] then
      { s1 with ExtraData := mapSet s1.ExtraData "company".toList userResponse.Company }
    else s1
  let s1 :=
    if userResponse.LdapDN ≠ [] then
      { s1 with ExtraData := mapSet s1.ExtraData "ldap_dn".toList userResponse.LdapDN }
    else s1
  let scopes := res.getHeader "X-OAuth-Scopes".toList
  let s1 :=
    if scopes ≠ [] then { s1 with ExtraData := mapSet s1.ExtraData "scopes".toList scopes }
    else s1
  let expiry := res.getHeader "github-authentication-token-expiration".toList
  if expiry ≠ [] then { s1 with ExtraData := mapSet s1.ExtraData "expires_at".toList expiry }
  else s1

/-- One iteration of `for _, url := range s.Endpoints(s.DefaultEndpoint())`. -/
def verifyEndpoint {σ : Type} (env : Env σ) (token : Text) (acc : Result × σ) (url : Text) :
    Result × σ :=
  match NewRequestWithContext env "GET".toList (url ++ "/user".toList) with
  | Except.error _ => acc
  | Except.ok req =>
    match env.Do acc.2 (verifyRequest req token) with
    | (Except.ok res, w1) =>
      if 200 ≤ res.StatusCode ∧ res.StatusCode < 300 then
        match env.decodeUser res.Body with
        | Except.ok userResponse => (recordUser acc.1 userResponse res, w1)
        | Except.error _ => (acc.1, w1)
      else (acc.1, w1)
    | (Except.error _, w1) => (acc.1, w1)

/-- The body of the loop of `FromData`. -/
def candidate {σ : Type} (s : Scanner) (env : Env σ) (verify : Bool) (w : σ)
    (m : List Text) : Option Result × σ :=
  if m.length ≠ 2 then (none, w)
  else
    let token := m.getD 1 []
    let specificFPs : List Text := ["github commit".toList]
    if IsKnownFalsePositive env token specificFPs false then (none, w)
    else
      let s1 : Result :=
        { DetectorType := DetectorType.Github, Raw := token, Verified := false,
          ExtraData :=
            mapSet [] "rotation_guide".toList
              "https://howtorotate.com/docs/tutorials/github/".toList,
          VerificationError := none }
      let (s1, w1) :=
        if verify then
          (Endpoints s.endpoints DefaultEndpoint).foldl (verifyEndpoint env token) (s1, w)
        else (s1, w)
      if !s1.Verified && IsKnownFalsePositive env token env.DefaultFalsePositives true then
        (none, w1)
      else (some s1, w1)

def FromData {σ : Type} (s : Scanner) (env : Env σ) (verify : Bool) (w : σ) (data : Text) :
    (List Result × Option GoError) × σ :=
  let found :=
    forEachMatch (candidate s env verify) w (FindAllStringSubmatch keyPat data) []
  ((found.1, none), found.2)

end github_old

/-! ## The four detectors behind one interface -/

/-- The four detectors. -/
inductive Detector where
  | accuweather : Detector
  | alchemy : Detector
  | github_old : github_old.Scanner → Detector
  | urlscan : Detector
deriving DecidableEq, Repr

namespace Detector
open detectors

/-- `Keywords()` of the detector. -/
def Keywords : Detector → List Text
  | accuweather => accuweather.Keywords
  | alchemy => alchemy.Keywords
  | github_old _ => github_old.Keywords
  | urlscan => urlscan.Keywords

/-- `keyPat` of the detector. -/
def keyPat : Detector → regexp.Re
  | accuweather => accuweather.keyPat
  | alchemy => alchemy.keyPat
  | github_old _ => github_old.keyPat
  | urlscan => urlscan.keyPat

/-- The loop body of the detector. -/
def candidate {σ : Type} : Detector → Env σ → Bool → σ → List Text → Option Result × σ
  | accuweather => accuweather.candidate
  | alchemy => alchemy.candidate
  | github_old s => github_old.candidate s
  | urlscan => urlscan.candidate

/-- `FromData` of the detector. -/
def FromData {σ : Type} : Detector → Env σ → Bool → σ → Text → (List Result × Option GoError) × σ
  | accuweather => accuweather.FromData
  | alchemy => alchemy.FromData
  | github_old s => github_old.FromData s
  | urlscan => urlscan.FromData

end Detector

/-! ## Denotation of the expressions -/

namespace regexp

/-- Denotation of an expression: `Re.Matches r s t` when `r` can take the
matcher from position `s` to position `t`. -/
def Re.Matches : Re → Pos → Pos → Prop
  | Re.empty, s, t => t = s
  | Re.rune cl, s, t =>
    ∃ c cs, s.rest = c :: cs ∧ cl.accepts c = true ∧ t = ⟨some c, cs, s.cap⟩
  | Re.cat a b, s, t => ∃ u, Re.Matches a s u ∧ Re.Matches b u t
  | Re.alt a b, s, t => Re.Matches a s t ∨ Re.Matches b s t
  | Re.plus cl, s, t =>
    ∃ c cs, (∀ x ∈ c :: cs, cl.accepts x = true) ∧ s.rest = (c :: cs) ++ t.rest
      ∧ t.cap = s.cap
  | Re.group a, s, t =>
    ∃ u, Re.Matches a s u
      ∧ t = ⟨u.prev, u.rest, some (s.rest.take (s.rest.length - u.rest.length))⟩
  | Re.wordBoundary, s, t => atWordBoundary s = true ∧ t = s

end regexp

/-! ## Vocabulary of the claims

What the remote service answers to the verification requests of a match, read
off the world rather than off the finding. -/

namespace detectors

/-- The answers of the service to requests sent one after the other, from
world state `w` on. -/
def exchange {σ : Type} (env : Env σ) : σ → List http.Request →
    List (Except GoError http.Response)
  | _, [] => []
  | w, req :: reqs => (env.Do w req).1 :: exchange env (env.Do w req).2 reqs

/-- The world after those requests. -/
def worldAfter {σ : Type} (env : Env σ) : σ → List http.Request → σ
  | w, [] => w
  | w, req :: reqs => worldAfter env (env.Do w req).2 reqs

end detectors

namespace github_old
open detectors

/-- The requests `GET <url>/user` carrying the token, for the endpoints in
order; an endpoint whose URL does not parse has none. -/
def requests {σ : Type} (env : Env σ) (token : Text) (urls : List Text) : List http.Request :=
  urls.filterMap (fun url =>
    match NewRequestWithContext env "GET".toList (url ++ "/user".toList) with
    | Except.ok req => some (verifyRequest req token)
    | Except.error _ => none)

/-- The account decoded from the last of the answers on which the detector
sets `Verified`: a response with a status code in 200..299 and a body that
decodes. -/
def lastAccount {σ : Type} (env : Env σ) : List (Except GoError http.Response) → Option userRes
  | [] => none
  | a :: rest =>
    match lastAccount env rest with
    | some u => some u
    | none =>
      match a with
      | Except.error _ => none
      | Except.ok res =>
        if is2xx res.StatusCode then
          match env.decodeUser res.Body with
          | Except.ok u => some u
          | Except.error _ => none
        else none

/-- The finding `s1` of a token before verification. -/
def fresh (token : Text) : Result :=
  { DetectorType := DetectorType.Github, Raw := token, Verified := false,
    ExtraData :=
      mapSet [] "rotation_guide".toList "https://howtorotate.com/docs/tutorials/github/".toList,
    VerificationError := none }

/-- The finding and the world after the block `if verify { ... }`. -/
def afterVerify {σ : Type} (s : Scanner) (env : Env σ) (verify : Bool) (w : σ) (token : Text) :
    Result × σ :=
  if verify then
    (Endpoints s.endpoints DefaultEndpoint).foldl (verifyEndpoint env token) (fresh token, w)
  else (fresh token, w)

end github_old

namespace Detector
open detectors

/-- The candidate of a submatch list: the text of group 1, trimmed by the
detectors that trim. -/
def candidateText : Detector → List Text → Text
  | github_old _, m => m.getD 1 []
  | _, m => strings.TrimSpace (m.getD 1 [])

/-- The verification requests the detector makes for a submatch list, in
order: one for accuweather, alchemy and urlscan, one per endpoint for
github_old; none where the URL does not parse. -/
def requests {σ : Type} (d : Detector) (env : Env σ) (m : List Text) : List http.Request :=
  match d with
  | accuweather =>
    match NewRequestWithContext env "GET".toList (accuweather.verifyURL (d.candidateText m)) with
    | Except.error _ => []
    | Except.ok req => [req]
  | alchemy =>
    match NewRequestWithContext env "GET".toList (alchemy.verifyURL (d.candidateText m)) with
    | Except.error _ => []
    | Except.ok req => [req]
  | github_old s =>
    github_old.requests env (d.candidateText m) (Endpoints s.endpoints github_old.DefaultEndpoint)
  | urlscan =>
    match NewRequestWithContext env "GET".toList "https://urlscan.io/user/quotas".toList with
    | Except.error _ => []
    | Except.ok req => [urlscan.verifyRequest req (d.candidateText m)]

/-- The answers of the service to those requests, sent from world state `w`
on. -/
def answers {σ : Type} (d : Detector) (env : Env σ) (w : σ) (m : List Text) :
    List (Except GoError http.Response) :=
  exchange env w (d.requests env m)

/-- An answer on which the detector sets `Verified`: a response with a status
code in 200..299 and, for github_old, a body that decodes. -/
def verifiedBy {σ : Type} (d : Detector) (env : Env σ) : Except GoError http.Response → Bool
  | Except.error _ => false
  | Except.ok res =>
    is2xx res.StatusCode &&
      (match d with
       | github_old _ =>
         (match env.decodeUser res.Body with
          | Except.ok _ => true
          | Except.error _ => false)
       | _ => true)

/-- An answer that is a response with a status code in 200..299. -/
def answered2xx : Except GoError http.Response → Bool
  | Except.error _ => false
  | Except.ok res => is2xx res.StatusCode

/-- An answer that leaves the check undecided: a transport-level failure, or a
response whose status code is neither in 200..299 nor 401. -/
def undecided : Except GoError http.Response → Bool
  | Except.error _ => true
  | Except.ok res => !is2xx res.StatusCode && decide (res.StatusCode ≠ 401)

/-- The false-positive filter after verification: `IsKnownFalsePositive` on the
candidate against the default word list, with the randomness check. -/
def isFalsePositive {σ : Type} (env : Env σ) (candidate : Text) : Bool :=
  IsKnownFalsePositive env candidate env.DefaultFalsePositives true

/-- The world state in which the loop of `FromData` reaches a match that comes
after the matches `pre`. -/
def worldAt {σ : Type} (d : Detector) (env : Env σ) (verify : Bool) (w : σ)
    (pre : List (List Text)) : σ :=
  (forEachMatch (d.candidate env verify) w pre []).2

end Detector

/-! ## Sample environments -/

namespace sample

/-- A decoder that accepts exactly the body `{}`, as an account named
`alice`. -/
def decodeUser (body : Text) : Except GoError github_old.userRes :=
  if body = "{}".toList then
    Except.ok
      { Login := "alice".toList, Type' := "User".toList, SiteAdmin := false, Name := [],
        Company := [], UserURL := "https://github.com/alice".toList, LdapDN := [] }
  else Except.error "invalid character"

/-- A world whose state counts the requests made so far: the service answers
the `n`-th request (from zero) with the `n`-th entry of `script`, and with a
transport error once the script is exhausted. The word list holds `example`
and every candidate looks random. -/
def scripted (script : List (Int × Text)) : detectors.Env Nat :=
  { Do := fun w _ =>
      match script.get? w with
      | some a => (Except.ok { StatusCode := a.1, Body := a.2, Header := [] }, w + 1)
      | none => (Except.error "context deadline exceeded", w + 1),
    urlError := fun _ => none,
    decodeUser := decodeUser,
    DefaultFalsePositives := ["example".toList],
    looksRandom := fun _ => true }

/-- A credential body of 35 runes that holds no entry of the sample word
list. -/
def key35 : Text := "0123456789abcdefghijklmnopqrstuvwxy".toList

/-- A credential body of 35 runes that holds `example`, an entry of the sample
word list. -/
def example35 : Text := "example789abcdefghijklmnopqrstuvwxy".toList

/-- A token of 40 hexadecimal digits. -/
def token40 : Text := "0123456789abcdef0123456789abcdef01234567".toList

/-- A urlscan key of 36 runes that holds `example`. -/
def example36 : Text := "example0-aaaa-bbbb-cccc-dddddddddddd".toList

/-- The finding of accuweather for `key35` once verified. -/
def verifiedFinding : detectors.Result :=
  { DetectorType := detectors.DetectorType.Accuweather, Raw := key35, Verified := true,
    ExtraData := [], VerificationError := none }

/-- The same finding before verification. -/
def verifiedFinding.unverified : detectors.Result :=
  { verifiedFinding with Verified := false }

/-- The chunk of the end-to-end example of the specification: the quoted body
has 33 runes. -/
def specChunk : Text := "accuweather_api_key = \"abcdef0123456789abcdef0123456789a\"".toList

/-- The body of the example, completed to 35 runes. -/
def body35 : Text := "abcdef0123456789abcdef0123456789abc".toList

/-- The chunk of the example with the body completed to 35 runes. -/
def chunk35 : Text := "accuweather_api_key = \"".toList ++ body35 ++ [Char.ofNat 34]

/-- A chunk made of the keyword, a separator and one quoted token of 36
credential-body runes. -/
def chunk36 : Text := "accuweather = \"0123456789abcdefghijklmnopqrstuvwxyz\"".toList

/-- The same with a token of 34 runes. -/
def chunk34 : Text := "accuweather = \"0123456789abcdefghijklmnopqrstuvwx\"".toList

/-- A world in which nothing rejects a candidate: an empty word list and a
randomness heuristic that accepts everything. -/
def lenient : detectors.Env Nat :=
  { scripted [] with DefaultFalsePositives := [] }

/-- A chunk holding `token40` after the keyword `github`. -/
def githubChunk : Text := "github_token = ".toList ++ token40

/-- The submatch list of `githubChunk`. -/
def githubMatch : List Text := [githubChunk, token40]

/-- A scanner configured with an enterprise endpoint followed by the public
one. -/
def twoEndpoints : github_old.Scanner :=
  { endpoints := ["https://ghe.example.com/api/v3".toList, "https://api.github.com".toList] }

/-- The finding of `token40` after the account `alice` was decoded from an
answer without the optional fields. -/
def aliceFinding : detectors.Result :=
  { DetectorType := detectors.DetectorType.Github, Raw := token40, Verified := true,
    ExtraData :=
      [("account_type".toList, "User".toList), ("url".toList, "https://github.com/alice".toList),
        ("username".toList, "alice".toList),
        ("rotation_guide".toList, "https://howtorotate.com/docs/tutorials/github/".toList)],
    VerificationError := none }

end sample

/-! # Theorems -/

namespace regexp

theorem runPlus_sound (cl : RuneClass) (k : Pos → Option Pos) (cap : Option Text) :
    ∀ (rest : Text) (prev : Option Char) (e : Pos),
      runPlus cl k cap prev rest = some e →
      ∃ t, (∃ c cs, (∀ x ∈ c :: cs, cl.accepts x = true) ∧ rest = (c :: cs) ++ t.rest
        ∧ t.cap = cap) ∧ k t = some e := by
  intro rest
  induction rest with
  | nil => intro prev e h; simp [runPlus] at h
  | cons c cs ih =>
    intro prev e h
    unfold runPlus at h
    by_cases hc : cl.accepts c = true
    · simp only [hc, if_true] at h
      cases hr : runPlus cl k cap (some c) cs with
      | some r =>
        rw [hr] at h
        obtain ⟨t, ⟨c1, cs1, hall, hrest, hcap⟩, hk⟩ := ih (some c) r hr
        refine ⟨t, ⟨c, c1 :: cs1, ?_, ?_, hcap⟩, ?_⟩
        · intro x hx
          rcases List.mem_cons.mp hx with hx | hx
          · rw [hx]; exact hc
          · exact hall x hx
        · rw [hrest]; rfl
        · rw [hk]; simpa using h
      | none =>
        rw [hr] at h
        refine ⟨⟨some c, cs, cap⟩, ⟨c, [], ?_, ?_, rfl⟩, by simpa using h⟩
        · intro x hx
          simp at hx
          rw [hx]; exact hc
        · rfl
    · simp [hc] at h

/-- Soundness of the matcher: a successful run went through a position the
expression denotes, and the continuation succeeded from there. -/
theorem run_sound : ∀ (r : Re) (s : Pos) (k : Pos → Option Pos) (e : Pos),
    Re.run r s k = some e → ∃ t, Re.Matches r s t ∧ k t = some e := by
  intro r
  induction r with
  | empty => intro s k e h; exact ⟨s, rfl, h⟩
  | rune cl =>
    intro s k e h
    unfold Re.run at h
    cases hs : s.rest with
    | nil => simp [hs] at h
    | cons c cs =>
      simp only [hs] at h
      by_cases hc : cl.accepts c = true
      · simp only [hc, if_true] at h
        exact ⟨⟨some c, cs, s.cap⟩, ⟨c, cs, hs, hc, rfl⟩, h⟩
      · simp [hc] at h
  | cat a b iha ihb =>
    intro s k e h
    unfold Re.run at h
    obtain ⟨u, hu, hk⟩ := iha s _ e h
    obtain ⟨t, ht, hk2⟩ := ihb u k e hk
    exact ⟨t, ⟨u, hu, ht⟩, hk2⟩
  | alt a b iha ihb =>
    intro s k e h
    unfold Re.run at h
    cases hr : Re.run a s k with
    | some r =>
      rw [hr] at h
      obtain ⟨t, ht, hk⟩ := iha s k r hr
      exact ⟨t, Or.inl ht, by rw [hk]; simpa using h⟩
    | none =>
      rw [hr] at h
      obtain ⟨t, ht, hk⟩ := ihb s k e h
      exact ⟨t, Or.inr ht, hk⟩
  | plus cl =>
    intro s k e h
    unfold Re.run at h
    obtain ⟨t, ⟨c, cs, hall, hrest, hcap⟩, hk⟩ := runPlus_sound cl k s.cap s.rest s.prev e h
    exact ⟨t, ⟨c, cs, hall, hrest, hcap⟩, hk⟩
  | group a iha =>
    intro s k e h
    unfold Re.run at h
    obtain ⟨u, hu, hk⟩ := iha s _ e h
    exact ⟨_, ⟨u, hu, rfl⟩, hk⟩
  | wordBoundary =>
    intro s k e h
    unfold Re.run at h
    by_cases hb : atWordBoundary s = true
    · simp only [hb, if_true] at h
      exact ⟨s, ⟨hb, rfl⟩, h⟩
    · simp [hb] at h

/-- A match only consumes input: the end position is a suffix of the start. -/
theorem Matches_suffix : ∀ (r : Re) (s t : Pos), Re.Matches r s t →
    ∃ xs, s.rest = xs ++ t.rest := by
  intro r
  induction r with
  | empty => intro s t h; exact ⟨[], by rw [h]; rfl⟩
  | rune cl =>
    intro s t h
    obtain ⟨c, cs, hs, _, ht⟩ := h
    exact ⟨[c], by rw [hs, ht]; rfl⟩
  | cat a b iha ihb =>
    intro s t h
    obtain ⟨u, hu, ht⟩ := h
    obtain ⟨xs, hxs⟩ := iha s u hu
    obtain ⟨ys, hys⟩ := ihb u t ht
    exact ⟨xs ++ ys, by rw [hxs, hys, List.append_assoc]⟩
  | alt a b iha ihb =>
    intro s t h
    rcases h with h | h
    · exact iha s t h
    · exact ihb s t h
  | plus cl =>
    intro s t h
    obtain ⟨c, cs, _, hs, _⟩ := h
    exact ⟨c :: cs, hs⟩
  | group a iha =>
    intro s t h
    obtain ⟨u, hu, ht⟩ := h
    obtain ⟨xs, hxs⟩ := iha s u hu
    exact ⟨xs, by rw [hxs, ht]⟩
  | wordBoundary =>
    intro s t h
    exact ⟨[], by rw [h.2]; rfl⟩

/-- What `cl{n}` consumes: `n` runes of the class, the capture untouched. -/
theorem times_rune_matches (cl : RuneClass) : ∀ (n : Nat) (s t : Pos),
    Re.Matches (Re.times (Re.rune cl) n) s t →
    ∃ xs, xs.length = n ∧ (∀ x ∈ xs, cl.accepts x = true) ∧ s.rest = xs ++ t.rest
      ∧ t.cap = s.cap := by
  intro n
  induction n with
  | zero =>
    intro s t h
    have ht : t = s := h
    exact ⟨[], rfl, by simp, by rw [ht]; rfl, by rw [ht]⟩
  | succ n ih =>
    intro s t h
    obtain ⟨u, ⟨c, cs, hs, hc, hu⟩, ht⟩ := h
    obtain ⟨xs, hlen, hall, hrest, hcap⟩ := ih u t ht
    refine ⟨c :: xs, by simp [hlen], ?_, ?_, ?_⟩
    · intro x hx
      rcases List.mem_cons.mp hx with hx | hx
      · rw [hx]; exact hc
      · exact hall x hx
    · rw [hs]
      have : u.rest = cs := by rw [hu]
      rw [← this, hrest]; rfl
    · rw [hcap, hu]

theorem inRanges_single (c : Char) (n : Nat) :
    inRanges [(c, c)] n = decide (n = c.toNat) := by
  simp only [inRanges, List.any_cons, List.any_nil, Bool.or_false]
  rw [Bool.eq_iff_iff]
  simp only [decide_eq_true_eq]
  omega

/-- The class of a literal under `(?i)` accepts the runes that fold to it. -/
theorem lit_accepts (c x : Char) :
    RuneClass.accepts ⟨[(c, c)], false, true⟩ x = strings.equalFoldRune c x := by
  have h : inRanges [(c, c)] = fun n => decide (n = c.toNat) := funext (inRanges_single c)
  simp only [RuneClass.accepts, strings.equalFoldRune, if_true, h]
  rw [Bool.eq_iff_iff]
  simp only [bne_iff_ne, ne_eq, Bool.not_eq_false, List.any_eq_true, decide_eq_true_eq,
    List.contains_iff_exists_mem_beq, beq_iff_eq]
  constructor
  · rintro ⟨n, hn, h1⟩
    exact ⟨n, hn, h1.symm⟩
  · rintro ⟨n, hn, h1⟩
    exact ⟨n, hn, h1.symm⟩

/-- A literal under `(?i)` only matches where the text starts with it, case
folded. -/
theorem lit_matches : ∀ (w : Text) (s t : Pos), Re.Matches (Re.lit true w) s t →
    strings.startsWithFold w s.rest = true := by
  intro w
  induction w with
  | nil => intro s t _; simp [strings.startsWithFold]
  | cons c cs ih =>
    intro s t h
    obtain ⟨u, ⟨x, xs, hs, hx, hu⟩, ht⟩ := h
    have h2 := ih u t ht
    rw [hs]
    simp only [strings.startsWithFold, Bool.and_eq_true]
    refine ⟨?_, ?_⟩
    · rw [← lit_accepts]; exact hx
    · rw [hu] at h2; exact h2

/-- An alternation matches through one of its branches. -/
theorem alts_matches : ∀ (rs : List Re) (s t : Pos), Re.Matches (Re.alts rs) s t →
    ∃ r ∈ rs, Re.Matches r s t := by
  intro rs
  induction rs with
  | nil =>
    intro s t h
    obtain ⟨c, cs, _, hc, _⟩ := h
    simp [RuneClass.accepts, inRanges] at hc
  | cons r rs ih =>
    intro s t h
    cases rs with
    | nil => exact ⟨r, by simp, h⟩
    | cons r2 rs2 =>
      rcases h with h | h
      · exact ⟨r, by simp, h⟩
      · obtain ⟨q, hq, hm⟩ := ih s t h
        exact ⟨q, List.mem_cons_of_mem _ hq, hm⟩

/-- An alternation of literals under `(?i)` only matches where the text starts
with one of them, case folded. -/
theorem alts_lit_matches (kws : List Text) (s t : Pos)
    (h : Re.Matches (Re.alts (kws.map (Re.lit true))) s t) :
    ∃ kw ∈ kws, strings.startsWithFold kw s.rest = true := by
  obtain ⟨r, hr, hm⟩ := alts_matches _ s t h
  obtain ⟨kw, hkw, rfl⟩ := List.mem_map.mp hr
  exact ⟨kw, hkw, lit_matches kw s t hm⟩

theorem allMatches_succ (re : Re) (fuel : Nat) (prev : Option Char) (rest : Text)
    (pme : Option Nat) :
    allMatches re (fuel + 1) prev rest pme =
      match Re.run re ⟨prev, rest, none⟩ some with
      | some e =>
        if e.rest.length = rest.length then
          (if pme = some rest.length then []
            else [[rest.take (rest.length - e.rest.length), e.cap.getD []]])
            ++ (if rest = [] then []
                else allMatches re fuel rest.head? rest.tail (some rest.length))
        else [rest.take (rest.length - e.rest.length), e.cap.getD []]
          :: allMatches re fuel e.prev e.rest (some e.rest.length)
      | none =>
        if rest = [] then [] else allMatches re fuel rest.head? rest.tail pme := rfl

/-- Every submatch list delivered by `allMatches` is `[whole, group 1]` of a
successful run of the matcher at some position of the text. -/
theorem allMatches_sound (re : Re) : ∀ (fuel : Nat) (prev : Option Char) (rest : Text)
    (pme : Option Nat) (m : List Text), m ∈ allMatches re fuel prev rest pme →
    ∃ p r e, Re.run re ⟨p, r, none⟩ some = some e
      ∧ m = [r.take (r.length - e.rest.length), e.cap.getD []] := by
  intro fuel
  induction fuel with
  | zero => intro prev rest pme m h; simp [allMatches] at h
  | succ fuel ih =>
    intro prev rest pme m h
    rw [allMatches_succ] at h
    cases hr : Re.run re ⟨prev, rest, none⟩ some with
    | some e =>
      simp only [hr] at h
      by_cases hlen : e.rest.length = rest.length
      · simp only [hlen, if_true, List.mem_append] at h
        rcases h with h | h
        · by_cases hp : pme = some rest.length
          · simp [hp] at h
          · simp only [hp, if_false, List.mem_singleton] at h
            exact ⟨prev, rest, e, hr, by rw [h, hlen]⟩
        · by_cases hn : rest = []
          · simp [hn] at h
          · simp only [hn, if_false] at h
            exact ih _ _ _ m h
      · simp only [hlen, if_false, List.mem_cons] at h
        rcases h with h | h
        · exact ⟨prev, rest, e, hr, h⟩
        · exact ih _ _ _ m h
    | none =>
      simp only [hr] at h
      by_cases hn : rest = []
      · simp [hn] at h
      · simp only [hn, if_false] at h
        exact ih _ _ _ m h

/-- Submatch lists have two entries: the whole match and the group. -/
theorem FindAllStringSubmatch_length (re : Re) (data : Text) (m : List Text)
    (h : m ∈ FindAllStringSubmatch re data) : m.length = 2 := by
  obtain ⟨p, r, e, _, hm⟩ := allMatches_sound re _ _ _ _ m h
  rw [hm]; rfl

/-- Where the matcher fails at every position of the text, nothing is found. -/
theorem allMatches_none (re : Re) : ∀ (fuel : Nat) (prev : Option Char) (rest : Text)
    (pme : Option Nat),
    (∀ (p : Option Char) (r : Text), r <:+ rest → Re.run re ⟨p, r, none⟩ some = none) →
    allMatches re fuel prev rest pme = [] := by
  intro fuel
  induction fuel with
  | zero => intro prev rest pme _; rfl
  | succ fuel ih =>
    intro prev rest pme h
    rw [allMatches_succ, h prev rest (List.suffix_refl rest)]
    by_cases hn : rest = []
    · simp [hn]
    · simp only [hn, if_false]
      exact ih _ _ pme (fun p r hr => h p r (List.IsSuffix.trans hr (List.tail_suffix rest)))

/-- A successful run ends at a position no further from the end of the text
than it started. -/
theorem run_rest_length (re : Re) (prev : Option Char) (rest : Text) (e : Pos)
    (h : Re.run re ⟨prev, rest, none⟩ some = some e) : e.rest.length ≤ rest.length := by
  obtain ⟨t, ht, hte⟩ := run_sound _ _ _ _ h
  simp only [Option.some.injEq] at hte
  subst hte
  obtain ⟨xs, hxs⟩ := Matches_suffix _ _ _ ht
  have : rest = xs ++ t.rest := hxs
  rw [this, List.length_append]
  omega

/-- The fuel of `FindAllStringSubmatch` is enough: with any fuel above the
length of the text the loop ends by itself, with the same matches. -/
theorem allMatches_fuel (re : Re) : ∀ (fuel fuel2 : Nat) (prev : Option Char) (rest : Text)
    (pme : Option Nat), rest.length < fuel → rest.length < fuel2 →
    allMatches re fuel prev rest pme = allMatches re fuel2 prev rest pme := by
  intro fuel
  induction fuel with
  | zero => intro fuel2 prev rest pme h; omega
  | succ fuel ih =>
    intro fuel2 prev rest pme h1 h2
    cases fuel2 with
    | zero => omega
    | succ fuel2 =>
      rw [allMatches_succ, allMatches_succ]
      have htail : rest ≠ [] → rest.tail.length < fuel ∧ rest.tail.length < fuel2 := by
        intro hne
        cases rest with
        | nil => exact absurd rfl hne
        | cons c cs =>
          simp only [List.length_cons, List.tail_cons] at h1 h2 ⊢
          omega
      cases hr : Re.run re ⟨prev, rest, none⟩ some with
      | some e =>
        simp only
        have hle := run_rest_length re prev rest e hr
        by_cases hlen : e.rest.length = rest.length
        · simp only [hlen, if_true]
          by_cases hn : rest = []
          · simp only [hn, if_true]
          · simp only [hn, if_false]
            rw [ih fuel2 _ _ _ (htail hn).1 (htail hn).2]
        · simp only [hlen, if_false]
          rw [ih fuel2 _ _ _ (by omega) (by omega)]
      | none =>
        simp only
        by_cases hn : rest = []
        · simp only [hn, if_true]
        · simp only [hn, if_false]
          rw [ih fuel2 _ _ _ (htail hn).1 (htail hn).2]

end regexp

namespace strings

/-- A text that does not contain `sub` has no suffix starting with it. -/
theorem startsWithFold_of_suffix (sub : Text) : ∀ (s r : Text), r <:+ s →
    startsWithFold sub r = true → containsFold sub s = true := by
  intro s
  induction s with
  | nil =>
    intro r hr h
    have : r = [] := List.eq_nil_of_suffix_nil hr
    rw [this] at h
    simpa [containsFold] using h
  | cons c cs ih =>
    intro r hr h
    rcases List.suffix_cons_iff.mp hr with hr | hr
    · rw [hr] at h
      simp [containsFold, h]
    · simp [containsFold, ih r hr h]

end strings

/-! ## Keywords and patterns -/

namespace Detector
open regexp detectors

theorem FromData_eq {σ : Type} (d : Detector) (env : Env σ) (verify : Bool) (w : σ)
    (data : Text) :
    d.FromData env verify w data =
      (((forEachMatch (d.candidate env verify) w
          (FindAllStringSubmatch d.keyPat data) []).1, none),
        (forEachMatch (d.candidate env verify) w
          (FindAllStringSubmatch d.keyPat data) []).2) := by
  cases d <;> rfl

/-- Every pattern starts with the alternation of the detector's keywords. -/
theorem keyPat_starts (d : Detector) (s t : Pos) (h : Re.Matches d.keyPat s t) :
    ∃ kw ∈ d.Keywords, strings.startsWithFold kw s.rest = true := by
  cases d with
  | accuweather =>
    obtain ⟨_, ⟨u, hu, _⟩, _⟩ := h
    exact alts_lit_matches _ s u hu
  | alchemy =>
    obtain ⟨_, ⟨u, hu, _⟩, _⟩ := h
    exact alts_lit_matches _ s u hu
  | github_old sc =>
    obtain ⟨u, hu, _⟩ := h
    exact alts_lit_matches github_old.Keywords s u hu
  | urlscan =>
    obtain ⟨_, ⟨u, hu, _⟩, _⟩ := h
    exact alts_lit_matches _ s u hu

/-- C7: for each of the four detectors, every verify flag and every chunk that
contains none of the detector's keywords as a case-insensitive substring (runes
compared under simple case folding, as the pattern's `(?i)` does), `FromData`
returns an empty result set and a nil error, and the world is left as it was:
no candidate is matched and no verification request is issued. -/
theorem no_keyword_no_findings {σ : Type} (d : Detector) (env : Env σ) (verify : Bool)
    (w : σ) (data : Text)
    (h : d.Keywords.any (fun kw => strings.containsFold kw data) = false) :
    d.FromData env verify w data = (([], none), w) := by
  have hnone : FindAllStringSubmatch d.keyPat data = [] := by
    apply allMatches_none
    intro p r hr
    cases hrun : Re.run d.keyPat ⟨p, r, none⟩ some with
    | none => rfl
    | some e =>
      exfalso
      obtain ⟨t, ht, _⟩ := run_sound _ _ _ _ hrun
      obtain ⟨kw, hkw, hst⟩ := keyPat_starts d _ t ht
      have hc := strings.startsWithFold_of_suffix kw data r hr hst
      have : d.Keywords.any (fun kw => strings.containsFold kw data) = true :=
        List.any_eq_true.mpr ⟨kw, hkw, hc⟩
      rw [h] at this
      exact Bool.false_ne_true this
  rw [FromData_eq, hnone]
  rfl

/-- Witness of C7: a chunk without `urlscan` given to the urlscan detector. -/
theorem no_keyword_no_findings_witness :
    Detector.urlscan.Keywords.any
        (fun kw => strings.containsFold kw "url = https://example.com/scan".toList) = false
      ∧ Detector.urlscan.FromData (sample.scripted []) true 0
          "url = https://example.com/scan".toList = (([], none), 0) :=
  ⟨by decide, no_keyword_no_findings _ _ _ _ _ (by decide)⟩

end Detector

/-! ## The loop over the matches -/

namespace detectors

theorem forEachMatch_acc {σ : Type} (body : σ → List Text → Option Result × σ) :
    ∀ (ms : List (List Text)) (w : σ) (acc : List Result),
      forEachMatch body w ms acc =
        (acc ++ (forEachMatch body w ms []).1, (forEachMatch body w ms []).2) := by
  intro ms
  induction ms with
  | nil => intro w acc; simp [forEachMatch]
  | cons m ms ih =>
    intro w acc
    simp only [forEachMatch]
    rcases hb : body w m with ⟨_ | s1, w1⟩
    · simp only [hb]
      exact ih w1 acc
    · simp only [hb]
      rw [ih w1 (acc ++ [s1]), ih w1 ([] ++ [s1])]
      simp

theorem forEachMatch_append {σ : Type} (body : σ → List Text → Option Result × σ) :
    ∀ (pre ms : List (List Text)) (w : σ),
      forEachMatch body w (pre ++ ms) [] =
        ((forEachMatch body w pre []).1
            ++ (forEachMatch body (forEachMatch body w pre []).2 ms []).1,
          (forEachMatch body (forEachMatch body w pre []).2 ms []).2) := by
  intro pre
  induction pre with
  | nil => intro ms w; simp [forEachMatch]
  | cons m pre ih =>
    intro ms w
    simp only [List.cons_append, forEachMatch]
    rcases hb : body w m with ⟨_ | s1, w1⟩
    · simp only [hb]
      exact ih ms w1
    · simp only [hb]
      show forEachMatch body w1 (pre ++ ms) ([] ++ [s1]) = _
      rw [forEachMatch_acc body (pre ++ ms) w1, forEachMatch_acc body pre w1, ih ms w1]
      simp

/-- A finding the body reaches `append` with is among the results. -/
theorem forEachMatch_mem {σ : Type} (body : σ → List Text → Option Result × σ)
    (pre post : List (List Text)) (m : List Text) (w : σ) (r : Result)
    (h : (body (forEachMatch body w pre []).2 m).1 = some r) :
    r ∈ (forEachMatch body w (pre ++ m :: post) []).1 := by
  rw [forEachMatch_append]
  apply List.mem_append_right
  simp only [forEachMatch]
  rcases hb : body (forEachMatch body w pre []).2 m with ⟨o, w1⟩
  rw [hb] at h
  simp only at h
  subst h
  simp only
  rw [forEachMatch_acc]
  simp

/-- A property of every finding the body reaches `append` with holds of every
result. -/
theorem forEachMatch_forall {σ : Type} (body : σ → List Text → Option Result × σ)
    (P : Result → Prop) :
    ∀ (ms : List (List Text)),
      (∀ (w : σ) (m : List Text) (r : Result), m ∈ ms → (body w m).1 = some r → P r) →
      ∀ (w : σ) (r : Result), r ∈ (forEachMatch body w ms []).1 → P r := by
  intro ms
  induction ms with
  | nil => intro _ w r hr; simp [forEachMatch] at hr
  | cons m ms ih =>
    intro hP w r hr
    simp only [forEachMatch] at hr
    have ih2 := ih (fun w m r hm => hP w m r (List.mem_cons_of_mem _ hm))
    rcases hb : body w m with ⟨_ | s1, w1⟩
    · simp only [hb] at hr
      exact ih2 w1 r hr
    · simp only [hb] at hr
      rw [forEachMatch_acc] at hr
      simp only [List.nil_append, List.mem_append, List.mem_singleton] at hr
      rcases hr with hr | hr
      · rw [hr]
        exact hP w m s1 (List.mem_cons_self _ _) (by rw [hb])
      · exact ih2 w1 r hr

end detectors

/-! ## The finding invariant -/

namespace accuweather
open detectors

theorem verifyAccuweather_inv {σ : Type} (env : Env σ) (w : σ) (x : Text) :
    (verifyAccuweather env w x).1.1 = true → (verifyAccuweather env w x).1.2 = none := by
  unfold verifyAccuweather
  cases NewRequestWithContext env "GET".toList (verifyURL x) with
  | error err => simp
  | ok req =>
    simp only
    rcases hdo : env.Do w req with ⟨_ | res, w1⟩
    · simp
    · simp only
      split_ifs <;> simp

theorem candidate_inv_accuweather {σ : Type} (env : Env σ) (verify : Bool) (w : σ) (m : List Text)
    (r : Result) (h : (candidate env verify w m).1 = some r) :
    r.Verified = true → r.VerificationError = none := by
  unfold candidate at h
  by_cases hl : m.length = 2
  · simp only [hl, ne_eq, not_true_eq_false, if_false] at h
    cases verify with
    | false =>
      simp only [Bool.false_eq_true, if_false] at h
      split_ifs at h
      simp only [Option.some.injEq] at h
      subst h
      simp
    | true =>
      simp only [if_true] at h
      have hinv := verifyAccuweather_inv env w (strings.TrimSpace (m.getD 1 []))
      rcases hv : verifyAccuweather env w (strings.TrimSpace (m.getD 1 [])) with ⟨⟨b, e⟩, w1⟩
      rw [hv] at h hinv
      simp only at h hinv
      split_ifs at h
      simp only [Option.some.injEq] at h
      subst h
      intro hb
      cases e with
      | none => simp [Result.SetVerificationError]
      | some e =>
        simp only [Result.SetVerificationError] at hb
        exact absurd (hinv hb) (by simp)
  · simp [hl] at h

end accuweather

/-! ## The tokens of github_old -/

namespace github_old
open regexp detectors

/-- The class `[a-f0-9]` under `(?i)`. -/
theorem hex_not_g (x : Char)
    (h : RuneClass.accepts ⟨[('a', 'f'), ('0', '9')], false, true⟩ x = true) :
    strings.equalFoldRune 'g' x = false := by
  simp only [RuneClass.accepts, strings.equalFoldRune, inRanges, if_true, bne_iff_ne, ne_eq,
    Bool.not_eq_false, List.any_eq_true, List.any_cons, List.any_nil, Bool.or_false,
    Bool.or_eq_true, decide_eq_true_eq] at h
  obtain ⟨n, hn, hr⟩ := h
  rw [Bool.eq_false_iff]
  intro hg
  simp only [strings.equalFoldRune, List.contains_iff_exists_mem_beq, beq_iff_eq] at hg
  obtain ⟨k, hk, hkg⟩ := hg
  have e1 : ('a' : Char).toNat = 97 := rfl
  have e2 : ('f' : Char).toNat = 102 := rfl
  have e3 : ('0' : Char).toNat = 48 := rfl
  have e4 : ('9' : Char).toNat = 57 := rfl
  have e5 : ('g' : Char).toNat = 103 := rfl
  rw [e1, e2, e3, e4] at hr
  rw [e5] at hkg
  unfold simpleFoldOrbit at hn hk
  split_ifs at hn hk <;> simp only [List.mem_cons, List.mem_singleton, List.not_mem_nil, or_false] at hn hk <;> omega

/-- Every submatch list of the pattern holds 40 hexadecimal digits in group 1. -/
theorem token_hex (data : Text) (m : List Text)
    (h : m ∈ FindAllStringSubmatch keyPat data) :
    ∃ whole tok, m = [whole, tok] ∧ tok.length = 40
      ∧ ∀ x ∈ tok, RuneClass.accepts ⟨[('a', 'f'), ('0', '9')], false, true⟩ x = true := by
  obtain ⟨p, r, e, hrun, hm⟩ := allMatches_sound keyPat _ _ _ _ m h
  obtain ⟨t, ht, hte⟩ := run_sound _ _ _ _ hrun
  simp only [Option.some.injEq] at hte
  subst hte
  obtain ⟨u1, _, u2, _, u3, _, u4, _, u5, ⟨u, hG, hu5⟩, _, ht5⟩ := ht
  obtain ⟨xs, hlen, hall, hrest, _⟩ := times_rune_matches _ 40 u4 u hG
  refine ⟨List.take (r.length - t.rest.length) r, xs, ?_, hlen, hall⟩
  rw [hm, ht5, hu5]
  simp [hrest]

end github_old

namespace strings

/-- A text containing a non-empty phrase holds a rune that folds to the
phrase's first rune. -/
theorem containsFold_head (c : Char) (cs : Text) : ∀ (s : Text),
    containsFold (c :: cs) s = true → ∃ x ∈ s, equalFoldRune c x = true := by
  intro s
  induction s with
  | nil => intro h; simp [containsFold, startsWithFold] at h
  | cons x xs ih =>
    intro h
    simp only [containsFold, startsWithFold, Bool.or_eq_true, Bool.and_eq_true] at h
    rcases h with h | h
    · exact ⟨x, List.mem_cons_self _ _, h.1⟩
    · obtain ⟨y, hy, hxy⟩ := ih h
      exact ⟨y, List.mem_cons_of_mem _ hy, hxy⟩

end strings

namespace github_old
open regexp detectors

/-- The filter against `github commit` never rejects a token of the pattern. -/
theorem specific_filter_passes {σ : Type} (env : Env σ) (data : Text) (m : List Text)
    (h : m ∈ FindAllStringSubmatch keyPat data) :
    IsKnownFalsePositive env (m.getD 1 []) ["github commit".toList] false = false := by
  obtain ⟨whole, tok, hm, _, hall⟩ := token_hex data m h
  rw [hm]
  simp only [IsKnownFalsePositive, List.any_cons, List.any_nil, Bool.or_false, Bool.false_and]
  rw [Bool.eq_false_iff]
  intro hc
  have hc2 : strings.containsFold ('g' :: "ithub commit".toList) tok = true := hc
  obtain ⟨x, hx, hg⟩ := strings.containsFold_head _ _ tok hc2
  rw [hex_not_g x (hall x hx)] at hg
  exact Bool.false_ne_true hg

theorem recordUser_fields (s1 : Result) (u : userRes) (res : http.Response) :
    (recordUser s1 u res).Verified = true ∧ (recordUser s1 u res).Raw = s1.Raw
      ∧ (recordUser s1 u res).VerificationError = s1.VerificationError
      ∧ (recordUser s1 u res).DetectorType = s1.DetectorType := by
  unfold recordUser
  simp only
  split_ifs <;> exact ⟨rfl, rfl, rfl, rfl⟩

/-- The loop over the endpoints: the requests go out in order, `Verified` is
set as soon as one answer is a 2xx response with a body that decodes and is
never reset, and the other fields of the finding but `ExtraData` are kept. -/
theorem foldl_verifyEndpoint {σ : Type} (sc : Scanner) (env : Env σ) (token : Text) :
    ∀ (eps : List Text) (s1 : Result) (w : σ),
      (eps.foldl (verifyEndpoint env token) (s1, w)).2
          = worldAfter env w (requests env token eps)
      ∧ (eps.foldl (verifyEndpoint env token) (s1, w)).1.Verified
          = (s1.Verified
              || (exchange env w (requests env token eps)).any
                  (Detector.verifiedBy (Detector.github_old sc) env))
      ∧ (eps.foldl (verifyEndpoint env token) (s1, w)).1.Raw = s1.Raw
      ∧ (eps.foldl (verifyEndpoint env token) (s1, w)).1.VerificationError
          = s1.VerificationError := by
  intro eps
  induction eps with
  | nil => intro s1 w; simp [worldAfter, exchange, requests]
  | cons url eps ih =>
    intro s1 w
    simp only [List.foldl_cons]
    cases hreq : NewRequestWithContext env "GET".toList (url ++ "/user".toList) with
    | error e =>
      have hs : verifyEndpoint env token (s1, w) url = (s1, w) := by
        unfold verifyEndpoint; simp only [hreq]
      have hr : requests env token (url :: eps) = requests env token eps := by
        simp only [requests, List.filterMap_cons, hreq]
      rw [hs, hr]
      exact ih s1 w
    | ok req =>
      have hr : requests env token (url :: eps)
          = verifyRequest req token :: requests env token eps := by
        simp only [requests, List.filterMap_cons, hreq]
      rw [hr]
      simp only [worldAfter, exchange, List.any_cons]
      rcases hdo : env.Do w (verifyRequest req token) with ⟨_ | res, w1⟩
      · have hs : verifyEndpoint env token (s1, w) url = (s1, w1) := by
          unfold verifyEndpoint; simp only [hreq, hdo]
        rw [hs]
        simpa [Detector.verifiedBy] using ih s1 w1
      · simp only [Detector.verifiedBy, is2xx]
        by_cases h2 : 200 ≤ res.StatusCode ∧ res.StatusCode < 300
        · simp only [h2, and_self, decide_True, Bool.true_and]
          cases hdec : env.decodeUser res.Body with
          | error e =>
            have hs : verifyEndpoint env token (s1, w) url = (s1, w1) := by
              unfold verifyEndpoint; simp only [hreq, hdo, h2, and_self, if_true, hdec]
            rw [hs]
            simpa using ih s1 w1
          | ok u =>
            have hs : verifyEndpoint env token (s1, w) url = (recordUser s1 u res, w1) := by
              unfold verifyEndpoint; simp only [hreq, hdo, h2, and_self, if_true, hdec]
            rw [hs]
            obtain ⟨hv, hraw, herr, _⟩ := recordUser_fields s1 u res
            obtain ⟨i1, i2, i3, i4⟩ := ih (recordUser s1 u res) w1
            refine ⟨i1, ?_, ?_, ?_⟩
            · rw [i2, hv]; simp
            · rw [i3, hraw]
            · rw [i4, herr]
        · have hs : verifyEndpoint env token (s1, w) url = (s1, w1) := by
            unfold verifyEndpoint; simp only [hreq, hdo, h2, if_false]
          rw [hs]
          simp only [h2, decide_False, Bool.false_and, Bool.false_or]
          simpa using ih s1 w1

end github_old

/-! ## The loop bodies, detector by detector -/

namespace accuweather
open detectors

/-- Without verification, a finding is appended only for a candidate the filter
lets through. -/
theorem candidate_unverified_accuweather {σ : Type} (env : Env σ) (w : σ) (m : List Text) (r : Result)
    (h : (candidate env false w m).1 = some r) :
    Detector.isFalsePositive env r.Raw = false := by
  unfold candidate at h
  by_cases hl : m.length = 2
  · simp only [hl, ne_eq, not_true_eq_false, if_false, Bool.false_eq_true] at h
    split_ifs at h with hfp
    simp only [Option.some.injEq] at h
    subst h
    simpa [Detector.isFalsePositive] using hfp
  · simp [hl] at h

theorem verifyAccuweather_error {σ : Type} (env : Env σ) (w w1 : σ) (x : Text)
    (req : http.Request) (e : GoError)
    (hreq : NewRequestWithContext env "GET".toList (verifyURL x) = Except.ok req)
    (hdo : env.Do w req = (Except.error e, w1)) :
    verifyAccuweather env w x = ((false, some e), w1) := by
  unfold verifyAccuweather
  simp only [hreq, hdo]

theorem verifyAccuweather_2xx {σ : Type} (env : Env σ) (w w1 : σ) (x : Text)
    (req : http.Request) (res : http.Response)
    (hreq : NewRequestWithContext env "GET".toList (verifyURL x) = Except.ok req)
    (hdo : env.Do w req = (Except.ok res, w1))
    (h : 200 ≤ res.StatusCode ∧ res.StatusCode < 300) :
    verifyAccuweather env w x = ((true, none), w1) := by
  unfold verifyAccuweather
  simp only [hreq, hdo, h, and_self, if_true]

theorem verifyAccuweather_401 {σ : Type} (env : Env σ) (w w1 : σ) (x : Text)
    (req : http.Request) (res : http.Response)
    (hreq : NewRequestWithContext env "GET".toList (verifyURL x) = Except.ok req)
    (hdo : env.Do w req = (Except.ok res, w1))
    (h : res.StatusCode = 401) :
    verifyAccuweather env w x = ((false, none), w1) := by
  unfold verifyAccuweather
  simp only [hreq, hdo, h, http.StatusUnauthorized]
  simp

theorem verifyAccuweather_other {σ : Type} (env : Env σ) (w w1 : σ) (x : Text)
    (req : http.Request) (res : http.Response)
    (hreq : NewRequestWithContext env "GET".toList (verifyURL x) = Except.ok req)
    (hdo : env.Do w req = (Except.ok res, w1))
    (h : ¬ (200 ≤ res.StatusCode ∧ res.StatusCode < 300)) (h401 : res.StatusCode ≠ 401) :
    verifyAccuweather env w x
      = ((false, some ("unexpected HTTP response status " ++ toString res.StatusCode)), w1) := by
  unfold verifyAccuweather
  simp only [hreq, hdo, h, if_false, http.StatusUnauthorized, ne_eq, h401, not_false_eq_true,
    if_true]

/-- The body with verification, given what `verifyAccuweather` returns. -/
theorem candidate_of_verify_accuweather {σ : Type} (env : Env σ) (w w1 : σ) (m : List Text) (b : Bool)
    (e : Option GoError) (hl : m.length = 2)
    (hv : verifyAccuweather env w (strings.TrimSpace (m.getD 1 [])) = ((b, e), w1)) :
    candidate env true w m =
      (if !b && Detector.isFalsePositive env (strings.TrimSpace (m.getD 1 [])) then none
        else some { DetectorType := DetectorType.Accuweather,
                    Raw := strings.TrimSpace (m.getD 1 []), Verified := b, ExtraData := [],
                    VerificationError := e }, w1) := by
  unfold candidate
  simp only [hl, ne_eq, not_true_eq_false, if_false, if_true, hv, Detector.isFalsePositive]
  generalize strings.TrimSpace (m.getD 1 []) = x
  cases e <;> cases b <;> simp only [Result.SetVerificationError] <;> split_ifs <;> rfl

/-- A candidate whose request is answered 2xx is appended as verified. -/
theorem candidate_verified_accuweather {σ : Type} (env : Env σ) (w : σ) (m : List Text)
    (hl : m.length = 2)
    (h : (Detector.accuweather.answers env w m).any (Detector.accuweather.verifiedBy env) = true) :
    ∃ r, (candidate env true w m).1 = some r
      ∧ r.Raw = Detector.accuweather.candidateText m ∧ r.Verified = true := by
  simp only [Detector.answers, Detector.requests] at h
  simp only [Detector.candidateText] at h ⊢
  cases hreq : NewRequestWithContext env "GET".toList
      (verifyURL (strings.TrimSpace (m.getD 1 []))) with
  | error e => rw [hreq] at h; simp [exchange] at h
  | ok req =>
    rw [hreq] at h
    simp only [exchange, List.any_cons, List.any_nil, Bool.or_false] at h
    rcases hdo : env.Do w req with ⟨_ | res, w1⟩
    · rw [hdo] at h; simp [Detector.verifiedBy] at h
    · rw [hdo] at h
      simp only [Detector.verifiedBy, is2xx, Bool.and_true, decide_eq_true_eq] at h
      rw [candidate_of_verify_accuweather env w w1 m true none hl
        (verifyAccuweather_2xx env w w1 _ req res hreq hdo h)]
      exact ⟨_, rfl, rfl, rfl⟩

/-- A candidate whose request is left undecided and which the filter lets
through is appended unverified, with the error attached. -/
theorem candidate_undecided_accuweather {σ : Type} (env : Env σ) (w : σ) (m : List Text)
    (hl : m.length = 2)
    (hne : Detector.accuweather.answers env w m ≠ [])
    (h : (Detector.accuweather.answers env w m).all Detector.undecided = true)
    (hfp : Detector.isFalsePositive env (Detector.accuweather.candidateText m) = false) :
    ∃ r, (candidate env true w m).1 = some r
      ∧ r.Raw = Detector.accuweather.candidateText m ∧ r.Verified = false
      ∧ r.VerificationError ≠ none := by
  simp only [Detector.answers, Detector.requests] at h hne
  simp only [Detector.candidateText] at h hne hfp ⊢
  cases hreq : NewRequestWithContext env "GET".toList
      (verifyURL (strings.TrimSpace (m.getD 1 []))) with
  | error e => rw [hreq] at hne; simp [exchange] at hne
  | ok req =>
    rw [hreq] at h
    simp only [exchange, List.all_cons, List.all_nil, Bool.and_true] at h
    rcases hdo : env.Do w req with ⟨e | res, w1⟩
    · rw [candidate_of_verify_accuweather env w w1 m false (some e) hl
        (verifyAccuweather_error env w w1 _ req e hreq hdo), hfp]
      exact ⟨_, rfl, rfl, rfl, by simp⟩
    · rw [hdo] at h
      simp only [Detector.undecided, is2xx, Bool.and_eq_true, Bool.not_eq_true',
        decide_eq_false_iff_not, decide_eq_true_eq] at h
      rw [candidate_of_verify_accuweather env w w1 m false _ hl
        (verifyAccuweather_other env w w1 _ req res hreq hdo h.1 h.2), hfp]
      exact ⟨_, rfl, rfl, rfl, by simp⟩

end accuweather

namespace alchemy
open detectors

theorem verifyInline_error {σ : Type} (env : Env σ) (w w1 : σ) (x : Text) (s1 : Result)
    (req : http.Request) (e : GoError)
    (hreq : NewRequestWithContext env "GET".toList (verifyURL x) = Except.ok req)
    (hdo : env.Do w req = (Except.error e, w1)) :
    verifyInline env w x s1 = some ({ s1 with VerificationError := some e }, w1) := by
  unfold verifyInline
  simp only [hreq, hdo]

theorem verifyInline_2xx {σ : Type} (env : Env σ) (w w1 : σ) (x : Text) (s1 : Result)
    (req : http.Request) (res : http.Response)
    (hreq : NewRequestWithContext env "GET".toList (verifyURL x) = Except.ok req)
    (hdo : env.Do w req = (Except.ok res, w1))
    (h : 200 ≤ res.StatusCode ∧ res.StatusCode < 300) :
    verifyInline env w x s1 = some ({ s1 with Verified := true }, w1) := by
  unfold verifyInline
  simp only [hreq, hdo, h, and_self, if_true]

theorem verifyInline_401 {σ : Type} (env : Env σ) (w w1 : σ) (x : Text) (s1 : Result)
    (req : http.Request) (res : http.Response)
    (hreq : NewRequestWithContext env "GET".toList (verifyURL x) = Except.ok req)
    (hdo : env.Do w req = (Except.ok res, w1))
    (h : res.StatusCode = 401) :
    verifyInline env w x s1 = some (s1, w1) := by
  unfold verifyInline
  simp only [hreq, hdo, h]
  simp

theorem verifyInline_other {σ : Type} (env : Env σ) (w w1 : σ) (x : Text) (s1 : Result)
    (req : http.Request) (res : http.Response)
    (hreq : NewRequestWithContext env "GET".toList (verifyURL x) = Except.ok req)
    (hdo : env.Do w req = (Except.ok res, w1))
    (h : ¬ (200 ≤ res.StatusCode ∧ res.StatusCode < 300)) (h401 : res.StatusCode ≠ 401) :
    verifyInline env w x s1 =
      some ({ s1 with
                VerificationError :=
                  some ("unexpected HTTP response status " ++ toString res.StatusCode) },
        w1) := by
  unfold verifyInline
  simp only [hreq, hdo, h, if_false, h401]

/-- The body with verification, given what the `if verify` block leaves. -/
theorem candidate_of_verify_alchemy {σ : Type} (env : Env σ) (w w1 : σ) (m : List Text) (s1 : Result)
    (hl : m.length = 2)
    (hv : verifyInline env w (strings.TrimSpace (m.getD 1 []))
        { DetectorType := DetectorType.Alchemy, Raw := strings.TrimSpace (m.getD 1 []),
          Verified := false, ExtraData := [], VerificationError := none } = some (s1, w1)) :
    candidate env true w m =
      (if !s1.Verified && Detector.isFalsePositive env (strings.TrimSpace (m.getD 1 [])) then none
        else some s1, w1) := by
  unfold candidate
  simp only [hl, ne_eq, not_true_eq_false, if_false, if_true, hv, Detector.isFalsePositive]
  split_ifs <;> rfl

theorem candidate_inv_alchemy {σ : Type} (env : Env σ) (verify : Bool) (w : σ) (m : List Text)
    (r : Result) (h : (candidate env verify w m).1 = some r) :
    r.Verified = true → r.VerificationError = none := by
  by_cases hl : m.length = 2
  · cases verify with
    | false =>
      unfold candidate at h
      simp only [hl, ne_eq, not_true_eq_false, if_false, Bool.false_eq_true] at h
      split_ifs at h
      simp only [Option.some.injEq] at h
      subst h
      simp
    | true =>
      cases hreq : NewRequestWithContext env "GET".toList
          (verifyURL (strings.TrimSpace (m.getD 1 []))) with
      | error e =>
        unfold candidate at h
        simp only [hl, ne_eq, not_true_eq_false, if_false, if_true, verifyInline, hreq] at h
        simp at h
      | ok req =>
        rcases hdo : env.Do w req with ⟨e | res, w1⟩
        · rw [candidate_of_verify_alchemy env w w1 m _ hl (verifyInline_error env w w1 _ _ req e hreq hdo)]
            at h
          simp only at h
          split_ifs at h
          simp only [Option.some.injEq] at h
          subst h
          simp
        · by_cases h2 : 200 ≤ res.StatusCode ∧ res.StatusCode < 300
          · rw [candidate_of_verify_alchemy env w w1 m _ hl
              (verifyInline_2xx env w w1 _ _ req res hreq hdo h2)] at h
            simp only at h
            split_ifs at h
            simp only [Option.some.injEq] at h
            subst h
            simp
          · by_cases h401 : res.StatusCode = 401
            · rw [candidate_of_verify_alchemy env w w1 m _ hl
                (verifyInline_401 env w w1 _ _ req res hreq hdo h401)] at h
              simp only at h
              split_ifs at h
              simp only [Option.some.injEq] at h
              subst h
              simp
            · rw [candidate_of_verify_alchemy env w w1 m _ hl
                (verifyInline_other env w w1 _ _ req res hreq hdo h2 h401)] at h
              simp only at h
              split_ifs at h
              simp only [Option.some.injEq] at h
              subst h
              simp
  · unfold candidate at h
    simp [hl] at h

/-- Without verification, a finding is appended only for a candidate the filter
lets through. -/
theorem candidate_unverified_alchemy {σ : Type} (env : Env σ) (w : σ) (m : List Text) (r : Result)
    (h : (candidate env false w m).1 = some r) :
    Detector.isFalsePositive env r.Raw = false := by
  unfold candidate at h
  by_cases hl : m.length = 2
  · simp only [hl, ne_eq, not_true_eq_false, if_false, Bool.false_eq_true] at h
    split_ifs at h with hfp
    simp only [Option.some.injEq] at h
    subst h
    simpa [Detector.isFalsePositive] using hfp
  · simp [hl] at h

/-- A candidate whose request is answered 2xx is appended as verified. -/
theorem candidate_verified_alchemy {σ : Type} (env : Env σ) (w : σ) (m : List Text)
    (hl : m.length = 2)
    (h : (Detector.alchemy.answers env w m).any (Detector.alchemy.verifiedBy env) = true) :
    ∃ r, (candidate env true w m).1 = some r
      ∧ r.Raw = Detector.alchemy.candidateText m ∧ r.Verified = true := by
  simp only [Detector.answers, Detector.requests] at h
  simp only [Detector.candidateText] at h ⊢
  cases hreq : NewRequestWithContext env "GET".toList
      (verifyURL (strings.TrimSpace (m.getD 1 []))) with
  | error e => rw [hreq] at h; simp [exchange] at h
  | ok req =>
    rw [hreq] at h
    simp only [exchange, List.any_cons, List.any_nil, Bool.or_false] at h
    rcases hdo : env.Do w req with ⟨_ | res, w1⟩
    · rw [hdo] at h; simp [Detector.verifiedBy] at h
    · rw [hdo] at h
      simp only [Detector.verifiedBy, is2xx, Bool.and_true, decide_eq_true_eq] at h
      rw [candidate_of_verify_alchemy env w w1 m _ hl
        (verifyInline_2xx env w w1 _ _ req res hreq hdo h)]
      exact ⟨_, rfl, rfl, rfl⟩

/-- A candidate whose request is left undecided and which the filter lets
through is appended unverified, with the error attached. -/
theorem candidate_undecided_alchemy {σ : Type} (env : Env σ) (w : σ) (m : List Text)
    (hl : m.length = 2)
    (hne : Detector.alchemy.answers env w m ≠ [])
    (h : (Detector.alchemy.answers env w m).all Detector.undecided = true)
    (hfp : Detector.isFalsePositive env (Detector.alchemy.candidateText m) = false) :
    ∃ r, (candidate env true w m).1 = some r
      ∧ r.Raw = Detector.alchemy.candidateText m ∧ r.Verified = false
      ∧ r.VerificationError ≠ none := by
  simp only [Detector.answers, Detector.requests] at h hne
  simp only [Detector.candidateText] at h hne hfp ⊢
  cases hreq : NewRequestWithContext env "GET".toList
      (verifyURL (strings.TrimSpace (m.getD 1 []))) with
  | error e => rw [hreq] at hne; simp [exchange] at hne
  | ok req =>
    rw [hreq] at h
    simp only [exchange, List.all_cons, List.all_nil, Bool.and_true] at h
    rcases hdo : env.Do w req with ⟨e | res, w1⟩
    · rw [candidate_of_verify_alchemy env w w1 m _ hl
        (verifyInline_error env w w1 _ _ req e hreq hdo)]
      simp only [Bool.not_false, Bool.true_and, hfp]
      exact ⟨_, rfl, rfl, rfl, by simp⟩
    · rw [hdo] at h
      simp only [Detector.undecided, is2xx, Bool.and_eq_true, Bool.not_eq_true',
        decide_eq_false_iff_not, decide_eq_true_eq] at h
      rw [candidate_of_verify_alchemy env w w1 m _ hl
        (verifyInline_other env w w1 _ _ req res hreq hdo h.1 h.2)]
      simp only [Bool.not_false, Bool.true_and, hfp]
      exact ⟨_, rfl, rfl, rfl, by simp⟩

end alchemy

namespace urlscan
open detectors

/-- The body with verification, given the answer of the service. -/
theorem candidate_of_answer_urlscan {σ : Type} (env : Env σ) (w w1 : σ) (m : List Text)
    (req : http.Request) (a : Except GoError http.Response) (hl : m.length = 2)
    (hreq : NewRequestWithContext env "GET".toList "https://urlscan.io/user/quotas".toList
      = Except.ok req)
    (hdo : env.Do w (verifyRequest req (strings.TrimSpace (m.getD 1 []))) = (a, w1)) :
    candidate env true w m =
      (if Detector.urlscan.verifiedBy env a then
          some { DetectorType := DetectorType.Urlscan, Raw := strings.TrimSpace (m.getD 1 []),
                 Verified := true, ExtraData := [], VerificationError := none }
        else if Detector.isFalsePositive env (strings.TrimSpace (m.getD 1 [])) then none
        else
          some { DetectorType := DetectorType.Urlscan, Raw := strings.TrimSpace (m.getD 1 []),
                 Verified := false, ExtraData := [], VerificationError := none }, w1) := by
  unfold candidate
  simp only [hl, ne_eq, not_true_eq_false, if_false, if_true, hreq, hdo,
    Detector.isFalsePositive]
  cases a with
  | error e =>
    simp only [Detector.verifiedBy, Bool.false_eq_true, if_false]
    split_ifs <;> rfl
  | ok res =>
    simp only [Detector.verifiedBy, is2xx, Bool.and_true]
    split_ifs <;> rfl

theorem candidate_inv_urlscan {σ : Type} (env : Env σ) (verify : Bool) (w : σ) (m : List Text)
    (r : Result) (h : (candidate env verify w m).1 = some r) :
    r.VerificationError = none := by
  by_cases hl : m.length = 2
  · cases verify with
    | false =>
      unfold candidate at h
      simp only [hl, ne_eq, not_true_eq_false, if_false, Bool.false_eq_true,
        Option.some.injEq] at h
      subst h
      rfl
    | true =>
      cases hreq : NewRequestWithContext env "GET".toList
          "https://urlscan.io/user/quotas".toList with
      | error e =>
        unfold candidate at h
        simp only [hl, ne_eq, not_true_eq_false, if_false, if_true, hreq] at h
        simp at h
      | ok req =>
        rcases hdo : env.Do w (verifyRequest req (strings.TrimSpace (m.getD 1 []))) with ⟨a, w1⟩
        rw [candidate_of_answer_urlscan env w w1 m req a hl hreq hdo] at h
        simp only at h
        split_ifs at h <;> simp only [Option.some.injEq] at h <;> subst h <;> rfl
  · unfold candidate at h
    simp [hl] at h

/-- A candidate whose request is answered 2xx is appended as verified. -/
theorem candidate_verified_urlscan {σ : Type} (env : Env σ) (w : σ) (m : List Text)
    (hl : m.length = 2)
    (h : (Detector.urlscan.answers env w m).any (Detector.urlscan.verifiedBy env) = true) :
    ∃ r, (candidate env true w m).1 = some r
      ∧ r.Raw = Detector.urlscan.candidateText m ∧ r.Verified = true := by
  simp only [Detector.answers, Detector.requests] at h
  simp only [Detector.candidateText] at h ⊢
  cases hreq : NewRequestWithContext env "GET".toList
      "https://urlscan.io/user/quotas".toList with
  | error e => rw [hreq] at h; simp [exchange] at h
  | ok req =>
    rw [hreq] at h
    simp only [exchange, List.any_cons, List.any_nil, Bool.or_false] at h
    rcases hdo : env.Do w (verifyRequest req (strings.TrimSpace (m.getD 1 []))) with ⟨a, w1⟩
    rw [hdo] at h
    simp only at h
    rw [candidate_of_answer_urlscan env w w1 m req a hl hreq hdo]
    simp only [h, if_true]
    exact ⟨_, rfl, rfl, rfl⟩

/-- A candidate whose request is left undecided and which the filter lets
through is appended unverified. -/
theorem candidate_undecided_urlscan {σ : Type} (env : Env σ) (w : σ) (m : List Text)
    (hl : m.length = 2)
    (hne : Detector.urlscan.answers env w m ≠ [])
    (h : (Detector.urlscan.answers env w m).all Detector.undecided = true)
    (hfp : Detector.isFalsePositive env (Detector.urlscan.candidateText m) = false) :
    ∃ r, (candidate env true w m).1 = some r
      ∧ r.Raw = Detector.urlscan.candidateText m ∧ r.Verified = false := by
  simp only [Detector.answers, Detector.requests] at h hne
  simp only [Detector.candidateText] at h hne hfp ⊢
  cases hreq : NewRequestWithContext env "GET".toList
      "https://urlscan.io/user/quotas".toList with
  | error e => rw [hreq] at hne; simp [exchange] at hne
  | ok req =>
    rw [hreq] at h
    simp only [exchange, List.all_cons, List.all_nil, Bool.and_true] at h
    rcases hdo : env.Do w (verifyRequest req (strings.TrimSpace (m.getD 1 []))) with ⟨a, w1⟩
    rw [hdo] at h
    simp only at h
    rw [candidate_of_answer_urlscan env w w1 m req a hl hreq hdo]
    have hnv : Detector.urlscan.verifiedBy env a = false := by
      cases a with
      | error e => rfl
      | ok res =>
        simp only [Detector.undecided, Bool.and_eq_true, Bool.not_eq_true'] at h
        simp [Detector.verifiedBy, h.1]
    simp only [hnv, hfp, Bool.false_eq_true, if_false]
    exact ⟨_, rfl, rfl, rfl⟩

end urlscan

namespace Detector
open detectors

/-- An answer that leaves the check undecided does not verify. -/
theorem not_verifiedBy_of_undecided {σ : Type} (d : Detector) (env : Env σ)
    (a : Except GoError http.Response) (h : undecided a = true) : d.verifiedBy env a = false := by
  cases a with
  | error e => rfl
  | ok res =>
    simp only [undecided, Bool.and_eq_true, Bool.not_eq_true'] at h
    simp [verifiedBy, h.1]

theorem not_any_verifiedBy_of_undecided {σ : Type} (d : Detector) (env : Env σ)
    (l : List (Except GoError http.Response)) (h : l.all undecided = true) :
    l.any (d.verifiedBy env) = false := by
  rw [Bool.eq_false_iff]
  intro hany
  obtain ⟨a, ha, hv⟩ := List.any_eq_true.mp hany
  rw [not_verifiedBy_of_undecided d env a (List.all_eq_true.mp h a ha)] at hv
  exact Bool.false_ne_true hv

end Detector

namespace github_old
open detectors

/-- The body on a submatch list the filter against `github commit` lets
through. -/
theorem candidate_eq_github {σ : Type} (sc : Scanner) (env : Env σ) (verify : Bool) (w : σ)
    (m : List Text) (hl : m.length = 2)
    (hpre : IsKnownFalsePositive env (m.getD 1 []) ["github commit".toList] false = false) :
    candidate sc env verify w m =
      (if !(afterVerify sc env verify w (m.getD 1 [])).1.Verified
            && Detector.isFalsePositive env (m.getD 1 []) then none
        else some (afterVerify sc env verify w (m.getD 1 [])).1,
        (afterVerify sc env verify w (m.getD 1 [])).2) := by
  unfold candidate
  simp only [hl, ne_eq, not_true_eq_false, if_false, hpre, Bool.false_eq_true,
    Detector.isFalsePositive, afterVerify, fresh]
  split_ifs <;> rfl

theorem afterVerify_fields {σ : Type} (sc : Scanner) (env : Env σ) (verify : Bool) (w : σ)
    (token : Text) :
    (afterVerify sc env verify w token).1.Raw = token
      ∧ (afterVerify sc env verify w token).1.VerificationError = none
      ∧ (afterVerify sc env verify w token).1.Verified
          = (verify
              && (exchange env w (requests env token (Endpoints sc.endpoints DefaultEndpoint))).any
                (Detector.verifiedBy (Detector.github_old sc) env)) := by
  cases verify with
  | false => exact ⟨rfl, rfl, rfl⟩
  | true =>
    obtain ⟨_, h2, h3, h4⟩ :=
      foldl_verifyEndpoint sc env token (Endpoints sc.endpoints DefaultEndpoint) (fresh token) w
    simp only [afterVerify, if_true, Bool.true_and]
    exact ⟨h3, h4, by rw [h2]; rfl⟩

theorem candidate_inv_github {σ : Type} (sc : Scanner) (env : Env σ) (verify : Bool) (w : σ)
    (m : List Text) (r : Result) (h : (candidate sc env verify w m).1 = some r) :
    r.VerificationError = none := by
  by_cases hl : m.length = 2
  · by_cases hpre : IsKnownFalsePositive env (m.getD 1 []) ["github commit".toList] false = false
    · rw [candidate_eq_github sc env verify w m hl hpre] at h
      simp only at h
      split_ifs at h
      simp only [Option.some.injEq] at h
      subst h
      exact (afterVerify_fields sc env verify w _).2.1
    · unfold candidate at h
      simp only [Bool.not_eq_false] at hpre
      simp only [hl, ne_eq, not_true_eq_false, if_false, hpre, if_true] at h
      simp at h
  · unfold candidate at h
    simp [hl] at h

/-- Without verification, a finding is appended only for a candidate the filter
lets through. -/
theorem candidate_unverified_github {σ : Type} (sc : Scanner) (env : Env σ) (w : σ) (m : List Text)
    (r : Result) (h : (candidate sc env false w m).1 = some r) :
    Detector.isFalsePositive env r.Raw = false := by
  by_cases hl : m.length = 2
  · by_cases hpre : IsKnownFalsePositive env (m.getD 1 []) ["github commit".toList] false = false
    · rw [candidate_eq_github sc env false w m hl hpre] at h
      simp only at h
      split_ifs at h with hfp
      simp only [Option.some.injEq] at h
      subst h
      rw [(afterVerify_fields sc env false w _).1]
      simpa [(afterVerify_fields sc env false w _).2.2] using hfp
    · unfold candidate at h
      simp only [Bool.not_eq_false] at hpre
      simp only [hl, ne_eq, not_true_eq_false, if_false, hpre, if_true] at h
      simp at h
  · unfold candidate at h
    simp [hl] at h

/-- A candidate to which an endpoint answers 2xx with a body that decodes is
appended as verified. -/
theorem candidate_verified_github {σ : Type} (sc : Scanner) (env : Env σ) (w : σ) (m : List Text)
    (hl : m.length = 2)
    (hpre : IsKnownFalsePositive env (m.getD 1 []) ["github commit".toList] false = false)
    (h : ((Detector.github_old sc).answers env w m).any
        ((Detector.github_old sc).verifiedBy env) = true) :
    ∃ r, (candidate sc env true w m).1 = some r
      ∧ r.Raw = (Detector.github_old sc).candidateText m ∧ r.Verified = true := by
  rw [candidate_eq_github sc env true w m hl hpre]
  obtain ⟨h1, _, h3⟩ := afterVerify_fields sc env true w (m.getD 1 [])
  have hv : (afterVerify sc env true w (m.getD 1 [])).1.Verified = true := by
    rw [h3, Bool.true_and]; exact h
  simp only [hv, Bool.not_true, Bool.false_and, Bool.false_eq_true, if_false]
  exact ⟨_, rfl, h1, hv⟩

/-- A candidate whose requests are all left undecided and which the filter lets
through is appended unverified. -/
theorem candidate_undecided_github {σ : Type} (sc : Scanner) (env : Env σ) (w : σ) (m : List Text)
    (hl : m.length = 2)
    (hpre : IsKnownFalsePositive env (m.getD 1 []) ["github commit".toList] false = false)
    (h : ((Detector.github_old sc).answers env w m).all Detector.undecided = true)
    (hfp : Detector.isFalsePositive env ((Detector.github_old sc).candidateText m) = false) :
    ∃ r, (candidate sc env true w m).1 = some r
      ∧ r.Raw = (Detector.github_old sc).candidateText m ∧ r.Verified = false := by
  rw [candidate_eq_github sc env true w m hl hpre]
  obtain ⟨h1, _, h3⟩ := afterVerify_fields sc env true w (m.getD 1 [])
  have hv : (afterVerify sc env true w (m.getD 1 [])).1.Verified = false := by
    rw [h3, Bool.true_and]
    exact Detector.not_any_verifiedBy_of_undecided (Detector.github_old sc) env _ h
  have hfp2 : Detector.isFalsePositive env (m.getD 1 []) = false := hfp
  simp only [hv, hfp2, Bool.not_false, Bool.and_false, Bool.false_eq_true, if_false]
  exact ⟨_, rfl, h1, hv⟩

end github_old

/-! ## The claims about the findings -/

namespace Detector
open regexp detectors

theorem candidate_inv_each {σ : Type} (d : Detector) (env : Env σ) (verify : Bool) (w : σ)
    (m : List Text) (r : Result) (h : (d.candidate env verify w m).1 = some r) :
    r.Verified = true → r.VerificationError = none := by
  cases d with
  | accuweather => exact accuweather.candidate_inv_accuweather env verify w m r h
  | alchemy => exact alchemy.candidate_inv_alchemy env verify w m r h
  | github_old sc => exact fun _ => github_old.candidate_inv_github sc env verify w m r h
  | urlscan => exact fun _ => urlscan.candidate_inv_urlscan env verify w m r h

/-- C4: every finding returned by `FromData` of any of the four detectors, for
every chunk, every verify flag and every behaviour of the remote service,
satisfies the invariant of a finding: if `Verified` is true then the
verification error is nil. -/
theorem finding_invariant {σ : Type} (d : Detector) (env : Env σ) (verify : Bool) (w : σ)
    (data : Text) (r : Result) (hr : r ∈ (d.FromData env verify w data).1.1)
    (hv : r.Verified = true) : r.VerificationError = none := by
  rw [FromData_eq] at hr
  exact forEachMatch_forall (d.candidate env verify)
    (fun r => r.Verified = true → r.VerificationError = none) _
    (fun w m r _ h => candidate_inv_each d env verify w m r h) w r hr hv

set_option maxRecDepth 100000 in
/-- Witness of C4: the verified finding of accuweather on a 200 answer. -/
theorem finding_invariant_witness :
    sample.verifiedFinding
      ∈ (Detector.accuweather.FromData (sample.scripted [(200, [])]) true 0
          ("accuweather = ".toList ++ sample.key35)).1.1
    ∧ sample.verifiedFinding.Verified = true
    ∧ sample.verifiedFinding.VerificationError = none :=
  ⟨by decide, rfl,
    finding_invariant Detector.accuweather (sample.scripted [(200, [])]) true 0
      ("accuweather = ".toList ++ sample.key35) sample.verifiedFinding (by decide) rfl⟩

theorem candidate_verified_each {σ : Type} (d : Detector) (env : Env σ) (w : σ) (data : Text)
    (m : List Text) (hm : m ∈ FindAllStringSubmatch d.keyPat data)
    (h : (d.answers env w m).any (d.verifiedBy env) = true) :
    ∃ r, (d.candidate env true w m).1 = some r ∧ r.Raw = d.candidateText m
      ∧ r.Verified = true := by
  have hl := FindAllStringSubmatch_length _ _ _ hm
  cases d with
  | accuweather => exact accuweather.candidate_verified_accuweather env w m hl h
  | alchemy => exact alchemy.candidate_verified_alchemy env w m hl h
  | github_old sc =>
    exact github_old.candidate_verified_github sc env w m hl
      (github_old.specific_filter_passes env data m hm) h
  | urlscan => exact urlscan.candidate_verified_urlscan env w m hl h

/-- C2: for each of the four detectors, every chunk and every regex match in
it: if `FromData` is called with verification and the verification of that
match comes back as verified (the service answers the request with a status
code in 200..299; for github_old, some endpoint does so with a body that
decodes), then a finding whose raw bytes are that match, with `Verified` set, is
among the returned results, whatever the false-positive filter holds: the word
list and the randomness heuristic of the environment are arbitrary. -/
theorem verified_never_discarded {σ : Type} (d : Detector) (env : Env σ) (w : σ)
    (data : Text) (pre post : List (List Text)) (m : List Text)
    (hm : FindAllStringSubmatch d.keyPat data = pre ++ m :: post)
    (hv : (d.answers env (d.worldAt env true w pre) m).any (d.verifiedBy env) = true) :
    ∃ r ∈ (d.FromData env true w data).1.1, r.Raw = d.candidateText m ∧ r.Verified = true := by
  have hmem : m ∈ FindAllStringSubmatch d.keyPat data := by rw [hm]; simp
  obtain ⟨r, hr, hraw, hver⟩ := candidate_verified_each d env _ data m hmem hv
  refine ⟨r, ?_, hraw, hver⟩
  rw [FromData_eq, hm]
  exact forEachMatch_mem _ pre post m w r hr

set_option maxRecDepth 100000 in
/-- Witness of C2: a urlscan candidate that holds `example`, a word of the
sample word list, and is answered 200. -/
theorem verified_never_discarded_witness :
    FindAllStringSubmatch Detector.urlscan.keyPat ("urlscan: ".toList ++ sample.example36)
        = [] ++ ["urlscan: ".toList ++ sample.example36, sample.example36] :: []
    ∧ isFalsePositive (sample.scripted [(200, [])]) sample.example36 = true
    ∧ ∃ r ∈ (Detector.urlscan.FromData (sample.scripted [(200, [])]) true 0
          ("urlscan: ".toList ++ sample.example36)).1.1,
        r.Raw = Detector.urlscan.candidateText
            ["urlscan: ".toList ++ sample.example36, sample.example36]
          ∧ r.Verified = true :=
  ⟨by decide, by decide,
    verified_never_discarded Detector.urlscan (sample.scripted [(200, [])]) 0
      ("urlscan: ".toList ++ sample.example36) [] []
      ["urlscan: ".toList ++ sample.example36, sample.example36] (by decide) (by decide)⟩

theorem candidate_undecided_each {σ : Type} (d : Detector) (env : Env σ) (w : σ) (data : Text)
    (m : List Text) (hm : m ∈ FindAllStringSubmatch d.keyPat data)
    (hne : d.answers env w m ≠ [])
    (h : (d.answers env w m).all undecided = true)
    (hfp : isFalsePositive env (d.candidateText m) = false) :
    ∃ r, (d.candidate env true w m).1 = some r ∧ r.Raw = d.candidateText m
      ∧ r.Verified = false
      ∧ (d = accuweather ∨ d = alchemy → r.VerificationError ≠ none) := by
  have hl := FindAllStringSubmatch_length _ _ _ hm
  cases d with
  | accuweather =>
    obtain ⟨r, h1, h2, h3, h4⟩ := accuweather.candidate_undecided_accuweather env w m hl hne h hfp
    exact ⟨r, h1, h2, h3, fun _ => h4⟩
  | alchemy =>
    obtain ⟨r, h1, h2, h3, h4⟩ := alchemy.candidate_undecided_alchemy env w m hl hne h hfp
    exact ⟨r, h1, h2, h3, fun _ => h4⟩
  | github_old sc =>
    obtain ⟨r, h1, h2, h3⟩ := github_old.candidate_undecided_github sc env w m hl
      (github_old.specific_filter_passes env data m hm) h hfp
    exact ⟨r, h1, h2, h3, fun hd => by rcases hd with hd | hd <;> cases hd⟩
  | urlscan =>
    obtain ⟨r, h1, h2, h3⟩ := urlscan.candidate_undecided_urlscan env w m hl hne h hfp
    exact ⟨r, h1, h2, h3, fun hd => by rcases hd with hd | hd <;> cases hd⟩

/-- C3, as amended: for each of the four detectors called with verification,
every candidate whose verification requests all fail at transport level or
receive a status code that is neither 2xx nor 401, and which the false-positive
filter does not classify as a false positive, is retained in the returned
findings with `Verified` false; for accuweather and alchemy the finding carries
a non-nil verification error. -/
theorem undecided_retained_unless_filtered {σ : Type} (d : Detector) (env : Env σ) (w : σ)
    (data : Text) (pre post : List (List Text)) (m : List Text)
    (hm : FindAllStringSubmatch d.keyPat data = pre ++ m :: post)
    (hne : (d.answers env (d.worldAt env true w pre) m).isEmpty = false)
    (hu : (d.answers env (d.worldAt env true w pre) m).all undecided = true)
    (hfp : isFalsePositive env (d.candidateText m) = false) :
    ∃ r ∈ (d.FromData env true w data).1.1, r.Raw = d.candidateText m ∧ r.Verified = false
      ∧ (d = accuweather ∨ d = alchemy → r.VerificationError ≠ none) := by
  have hmem : m ∈ FindAllStringSubmatch d.keyPat data := by rw [hm]; simp
  have hne2 : d.answers env (d.worldAt env true w pre) m ≠ [] := by
    intro h0
    rw [h0] at hne
    exact Bool.noConfusion hne
  obtain ⟨r, hr, hraw, hver, herr⟩ := candidate_undecided_each d env _ data m hmem hne2 hu hfp
  refine ⟨r, ?_, hraw, hver, herr⟩
  rw [FromData_eq, hm]
  exact forEachMatch_mem _ pre post m w r hr

set_option maxRecDepth 100000 in
/-- Witness of C3 as amended: an accuweather candidate outside the word list,
answered 500. -/
theorem undecided_retained_unless_filtered_witness :
    FindAllStringSubmatch Detector.accuweather.keyPat ("accuweather = ".toList ++ sample.key35)
        = [] ++ ["accuweather = ".toList ++ sample.key35, sample.key35] :: []
    ∧ ∃ r ∈ (Detector.accuweather.FromData (sample.scripted [(500, [])]) true 0
          ("accuweather = ".toList ++ sample.key35)).1.1,
        r.Raw = Detector.accuweather.candidateText
            ["accuweather = ".toList ++ sample.key35, sample.key35]
          ∧ r.Verified = false
          ∧ (Detector.accuweather = accuweather ∨ Detector.accuweather = alchemy →
              r.VerificationError ≠ none) :=
  ⟨by decide,
    undecided_retained_unless_filtered Detector.accuweather (sample.scripted [(500, [])]) 0
      ("accuweather = ".toList ++ sample.key35) [] []
      ["accuweather = ".toList ++ sample.key35, sample.key35] (by decide) (by decide)
      (by decide) (by decide)⟩

set_option maxRecDepth 100000 in
/-- C3 fails as stated: accuweather, called with verification on a candidate the
false-positive filter rejects, drops the candidate whose request was answered
with status 500 instead of retaining it with an error. -/
theorem undecided_dropped_when_filtered :
    FindAllStringSubmatch accuweather.keyPat ("accuweather = ".toList ++ sample.example35)
        = [["accuweather = ".toList ++ sample.example35, sample.example35]]
    ∧ (Detector.accuweather.answers (sample.scripted [(500, [])]) 0
          ["accuweather = ".toList ++ sample.example35, sample.example35]).isEmpty = false
    ∧ (Detector.accuweather.answers (sample.scripted [(500, [])]) 0
          ["accuweather = ".toList ++ sample.example35, sample.example35]).all undecided = true
    ∧ accuweather.FromData (sample.scripted [(500, [])]) true 0
          ("accuweather = ".toList ++ sample.example35) = (([], none), 1) := by
  decide

end Detector

/-! ## The mapping of the outcome of the verification request -/

namespace Detector
open detectors

/-- C1: for every candidate and every outcome of the verification request, the
accuweather detector (`verifyAccuweather`) and the alchemy detector (the
`if verify` block of `FromData`, on a fresh finding) map the outcome as follows:
a status code in 200..299 gives verified true and no verification error; status
401 gives verified false and no verification error; any other status code, or a
transport-level failure, gives verified false and a non-nil verification
error. -/
theorem status_mapping {σ : Type} (env : Env σ) (w wA wB : σ) (x : Text) (s1 : Result)
    (reqA reqB : http.Request) (aA aB : Except GoError http.Response)
    (hreqA : NewRequestWithContext env "GET".toList (accuweather.verifyURL x) = Except.ok reqA)
    (hdoA : env.Do w reqA = (aA, wA))
    (hreqB : NewRequestWithContext env "GET".toList (alchemy.verifyURL x) = Except.ok reqB)
    (hdoB : env.Do w reqB = (aB, wB))
    (hs1 : s1.Verified = false ∧ s1.VerificationError = none) :
    ((∀ res, aA = Except.ok res → 200 ≤ res.StatusCode ∧ res.StatusCode < 300 →
        accuweather.verifyAccuweather env w x = ((true, none), wA))
      ∧ (∀ res, aA = Except.ok res → res.StatusCode = 401 →
        accuweather.verifyAccuweather env w x = ((false, none), wA))
      ∧ (∀ res, aA = Except.ok res → ¬ (200 ≤ res.StatusCode ∧ res.StatusCode < 300) →
        res.StatusCode ≠ 401 →
        ∃ err, accuweather.verifyAccuweather env w x = ((false, some err), wA))
      ∧ (∀ e, aA = Except.error e →
        accuweather.verifyAccuweather env w x = ((false, some e), wA)))
    ∧ ((∀ res, aB = Except.ok res → 200 ≤ res.StatusCode ∧ res.StatusCode < 300 →
        ∃ s2, alchemy.verifyInline env w x s1 = some (s2, wB)
          ∧ s2.Verified = true ∧ s2.VerificationError = none)
      ∧ (∀ res, aB = Except.ok res → res.StatusCode = 401 →
        ∃ s2, alchemy.verifyInline env w x s1 = some (s2, wB)
          ∧ s2.Verified = false ∧ s2.VerificationError = none)
      ∧ (∀ res, aB = Except.ok res → ¬ (200 ≤ res.StatusCode ∧ res.StatusCode < 300) →
        res.StatusCode ≠ 401 →
        ∃ s2, alchemy.verifyInline env w x s1 = some (s2, wB)
          ∧ s2.Verified = false ∧ s2.VerificationError ≠ none)
      ∧ (∀ e, aB = Except.error e →
        ∃ s2, alchemy.verifyInline env w x s1 = some (s2, wB)
          ∧ s2.Verified = false ∧ s2.VerificationError = some e)) := by
  refine ⟨⟨?_, ?_, ?_, ?_⟩, ⟨?_, ?_, ?_, ?_⟩⟩
  · intro res ha h
    subst ha
    exact accuweather.verifyAccuweather_2xx env w wA x reqA res hreqA hdoA h
  · intro res ha h
    subst ha
    exact accuweather.verifyAccuweather_401 env w wA x reqA res hreqA hdoA h
  · intro res ha h h401
    subst ha
    exact ⟨_, accuweather.verifyAccuweather_other env w wA x reqA res hreqA hdoA h h401⟩
  · intro e ha
    subst ha
    exact accuweather.verifyAccuweather_error env w wA x reqA e hreqA hdoA
  · intro res ha h
    subst ha
    exact ⟨_, alchemy.verifyInline_2xx env w wB x s1 reqB res hreqB hdoB h, rfl, hs1.2⟩
  · intro res ha h
    subst ha
    exact ⟨_, alchemy.verifyInline_401 env w wB x s1 reqB res hreqB hdoB h, hs1.1, hs1.2⟩
  · intro res ha h h401
    subst ha
    exact ⟨_, alchemy.verifyInline_other env w wB x s1 reqB res hreqB hdoB h h401, hs1.1,
      by simp⟩
  · intro e ha
    subst ha
    exact ⟨_, alchemy.verifyInline_error env w wB x s1 reqB e hreqB hdoB, hs1.1, rfl⟩

/-- Witness of C1: both requests answered 500. -/
theorem status_mapping_witness :
    accuweather.verifyAccuweather (sample.scripted [(500, [])]) 0 sample.key35
        = ((false, some "unexpected HTTP response status 500"), 1)
    ∧ ∃ s2, alchemy.verifyInline (sample.scripted [(500, [])]) 0 sample.key35
          sample.verifiedFinding.unverified = some (s2, 1)
        ∧ s2.Verified = false ∧ s2.VerificationError ≠ none :=
  ⟨rfl,
    (status_mapping (sample.scripted [(500, [])]) 0 1 1 sample.key35
      sample.verifiedFinding.unverified
      { Method := "GET".toList, URL := accuweather.verifyURL sample.key35, Header := [] }
      { Method := "GET".toList, URL := alchemy.verifyURL sample.key35, Header := [] }
      (Except.ok { StatusCode := 500, Body := [], Header := [] })
      (Except.ok { StatusCode := 500, Body := [], Header := [] })
      rfl rfl rfl rfl ⟨rfl, rfl⟩).2.2.2.1
      { StatusCode := 500, Body := [], Header := [] } rfl (by decide) (by decide)⟩

end Detector

/-! ## The filter without verification -/

namespace Detector
open regexp detectors

/-- For accuweather, alchemy and github_old called without verification, no
returned finding is one the false-positive filter rejects. -/
theorem unverified_filtered {σ : Type} (d : Detector) (hd : d ≠ urlscan) (env : Env σ) (w : σ)
    (data : Text) (r : Result) (hr : r ∈ (d.FromData env false w data).1.1) :
    isFalsePositive env r.Raw = false := by
  rw [FromData_eq] at hr
  refine forEachMatch_forall (d.candidate env false)
    (fun r => isFalsePositive env r.Raw = false) _ ?_ w r hr
  intro w m r _ h
  cases d with
  | accuweather => exact accuweather.candidate_unverified_accuweather env w m r h
  | alchemy => exact alchemy.candidate_unverified_alchemy env w m r h
  | github_old sc => exact github_old.candidate_unverified_github sc env w m r h
  | urlscan => exact absurd rfl hd

set_option maxRecDepth 100000 in
/-- An instance of `unverified_filtered`: accuweather on a candidate outside the
word list. -/
theorem unverified_filtered_witness :
    (Detector.accuweather.FromData (sample.scripted []) false 0
        ("accuweather = ".toList ++ sample.key35)).1.1 = [sample.verifiedFinding.unverified]
    ∧ isFalsePositive (sample.scripted []) sample.verifiedFinding.unverified.Raw = false :=
  ⟨by decide,
    unverified_filtered Detector.accuweather (by decide) (sample.scripted []) 0
      ("accuweather = ".toList ++ sample.key35) sample.verifiedFinding.unverified (by decide)⟩

set_option maxRecDepth 100000 in
/-- C5 at its failing input: urlscan, called without verification on a chunk
whose candidate holds `example`, an entry of the word list, returns the
candidate although the false-positive filter classifies it as a false
positive. -/
theorem urlscan_keeps_false_positive :
    urlscan.FromData (sample.scripted []) false 0 ("urlscan: ".toList ++ sample.example36)
      = (([{ DetectorType := DetectorType.Urlscan, Raw := sample.example36, Verified := false,
             ExtraData := [], VerificationError := none }], none), 0)
    ∧ isFalsePositive (sample.scripted []) sample.example36 = true := by
  decide

/-! ## The length of the accuweather credential -/

set_option maxRecDepth 100000 in
/-- C8 fails as stated: the quoted body of the example has 33 runes, not 35, the
pattern finds nothing in the chunk, and `FromData` returns no finding even where
no filter rejects anything. -/
theorem spec_example_not_found :
    ("abcdef0123456789abcdef0123456789a".toList).length = 33
    ∧ FindAllStringSubmatch accuweather.keyPat sample.specChunk = []
    ∧ accuweather.FromData sample.lenient false 0 sample.specChunk = (([], none), 0) := by
  decide

set_option maxRecDepth 100000 in
theorem specChunk_matches :
    FindAllStringSubmatch accuweather.keyPat sample.specChunk = [] := by
  decide

set_option maxRecDepth 100000 in
theorem chunk35_matches :
    FindAllStringSubmatch accuweather.keyPat sample.chunk35
      = [["accuweather_api_key = \"".toList ++ sample.body35, sample.body35]] := by
  decide

/-- C8, as amended: on the chunk of the example with the body completed to 35
runes, `FromData` without verification returns exactly one finding, whose raw
bytes are the body and whose `Verified` is false, provided the false-positive
filter does not reject the body; on the chunk as the specification gives it,
with a body of 33 runes, it returns no finding. -/
theorem example_with_35_runes {σ : Type} (env : Env σ) (w : σ)
    (hfp : isFalsePositive env sample.body35 = false) :
    accuweather.FromData env false w sample.chunk35
        = (([{ DetectorType := DetectorType.Accuweather, Raw := sample.body35,
               Verified := false, ExtraData := [], VerificationError := none }], none), w)
    ∧ accuweather.FromData env false w sample.specChunk = (([], none), w) := by
  have h33 : FindAllStringSubmatch accuweather.keyPat sample.specChunk = [] :=
    specChunk_matches
  have htrim : strings.TrimSpace sample.body35 = sample.body35 := by decide
  simp only [isFalsePositive] at hfp
  refine ⟨?_, ?_⟩
  · simp only [accuweather.FromData, chunk35_matches, forEachMatch, accuweather.candidate,
      List.length_cons, List.length_nil, List.getD_cons_succ, List.getD_cons_zero, htrim, hfp]
    simp [htrim, hfp]
  · simp only [accuweather.FromData, h33, forEachMatch]

/-- Witness of C8 as amended: a world whose filter rejects nothing. -/
theorem example_with_35_runes_witness :
    isFalsePositive sample.lenient sample.body35 = false
    ∧ accuweather.FromData sample.lenient false 0 sample.chunk35
        = (([{ DetectorType := DetectorType.Accuweather, Raw := sample.body35,
               Verified := false, ExtraData := [], VerificationError := none }], none), 0)
    ∧ accuweather.FromData sample.lenient false 0 sample.specChunk = (([], none), 0) :=
  ⟨by decide, example_with_35_runes sample.lenient 0 (by decide)⟩

/-- What holds of the wrong lengths: a chunk without 35 consecutive runes of the
class of the credential body, in particular one whose tokens are all shorter
than 35, has no match. -/
theorem no_run_no_match (data : Text)
    (h : ∀ r, r <:+ data →
      ¬ (35 ≤ r.length ∧ ∀ x ∈ r.take 35,
          RuneClass.accepts ⟨[('a', 'z'), ('0', '9'), ('A', 'Z'), ('%', '%')], false, true⟩ x
            = true)) :
    FindAllStringSubmatch accuweather.keyPat data = [] := by
  apply allMatches_none
  intro p r hr
  cases hrun : Re.run accuweather.keyPat ⟨p, r, none⟩ some with
  | none => rfl
  | some e =>
    exfalso
    obtain ⟨t, ht, _⟩ := run_sound _ _ _ _ hrun
    obtain ⟨u, hpre, u2, ⟨v, hG, _⟩, _⟩ := ht
    obtain ⟨xs, hxs⟩ := Matches_suffix _ _ _ hpre
    obtain ⟨ys, hlen, hall, hrest, _⟩ := times_rune_matches _ 35 u v hG
    have hsuf : u.rest <:+ data := List.IsSuffix.trans ⟨xs, hxs.symm⟩ hr
    refine h u.rest hsuf ⟨?_, ?_⟩
    · rw [hrest, List.length_append]; omega
    · have : u.rest.take 35 = ys := by
        rw [hrest, ← hlen]; simp
      rw [this]; exact hall

set_option maxRecDepth 100000 in
/-- C9 at its failing input: in a chunk made of the keyword, a separator and
one quoted token of 36 credential-body runes, the pattern, which has no
boundary before the group, lets the lookback window take the first rune of the
token and matches the remaining 35: `FromData` returns a finding for them. A
token of 34 runes gives nothing. -/
theorem token_of_36_runes_matches :
    FindAllStringSubmatch accuweather.keyPat sample.chunk36
      = [["accuweather = \"0123456789abcdefghijklmnopqrstuvwxyz".toList,
          "123456789abcdefghijklmnopqrstuvwxyz".toList]]
    ∧ accuweather.FromData sample.lenient false 0 sample.chunk36
      = (([{ DetectorType := DetectorType.Accuweather,
             Raw := "123456789abcdefghijklmnopqrstuvwxyz".toList, Verified := false,
             ExtraData := [], VerificationError := none }], none), 0)
    ∧ FindAllStringSubmatch accuweather.keyPat sample.chunk34 = [] := by
  decide

end Detector

/-! ## The endpoints of github_old -/

namespace detectors

theorem mapGet_mapSet (m : List (Text × Text)) (k v k2 : Text) :
    mapGet (mapSet m k v) k2 = if k = k2 then some v else mapGet m k2 := by
  unfold mapGet mapSet
  by_cases h : k = k2
  · simp [h]
  · simp only [h, if_false]
    have hb : (k == k2) = false := by simpa using h
    rw [List.find?_cons]
    simp only [hb]
    congr 1
    induction m with
    | nil => rfl
    | cons kv m ih =>
      by_cases hk : kv.1 = k
      · have h1 : (kv.1 != k) = false := by simp [hk]
        have h2 : (kv.1 == k2) = false := by rw [hk]; exact hb
        rw [List.filter_cons]
        simp only [h1, Bool.false_eq_true, if_false]
        rw [List.find?_cons]
        simp only [h2]
        exact ih
      · have h1 : (kv.1 != k) = true := by simpa using hk
        rw [List.filter_cons]
        simp only [h1, if_true]
        rw [List.find?_cons, List.find?_cons]
        cases hkv : (kv.1 == k2) with
        | true => rfl
        | false => exact ih

end detectors

namespace github_old
open regexp detectors

theorem setIf_keep (c : Prop) [Decidable c] (s : Result) (k v k2 : Text) (h : k ≠ k2) :
    mapGet (if c then { s with ExtraData := mapSet s.ExtraData k v } else s).ExtraData k2
      = mapGet s.ExtraData k2 := by
  split_ifs
  · simp only [mapGet_mapSet, h, if_false]
  · rfl

theorem recordUser_account (s1 : Result) (u : userRes) (res : http.Response) :
    mapGet (recordUser s1 u res).ExtraData "username".toList = some u.Login
      ∧ mapGet (recordUser s1 u res).ExtraData "url".toList = some u.UserURL
      ∧ mapGet (recordUser s1 u res).ExtraData "account_type".toList = some u.Type' := by
  unfold recordUser
  simp only
  refine ⟨?_, ?_, ?_⟩
  all_goals
    rw [setIf_keep _ _ _ _ _ (by decide), setIf_keep _ _ _ _ _ (by decide),
      setIf_keep _ _ _ _ _ (by decide), setIf_keep _ _ _ _ _ (by decide),
      setIf_keep _ _ _ _ _ (by decide)]
    split_ifs <;> simp only [mapGet_mapSet] <;>
      repeat (first | rw [if_pos trivial] | rw [if_pos rfl] | rw [if_neg (by decide)])

/-- One iteration of the loop over the endpoints, by the answer of the
service. -/
theorem verifyEndpoint_step {σ : Type} (env : Env σ) (token : Text) (s1 : Result) (w : σ)
    (url : Text) (req : http.Request)
    (hreq : NewRequestWithContext env "GET".toList (url ++ "/user".toList) = Except.ok req) :
    verifyEndpoint env token (s1, w) url =
      (match (env.Do w (verifyRequest req token)).1 with
        | Except.error _ => s1
        | Except.ok res =>
          if is2xx res.StatusCode then
            match env.decodeUser res.Body with
            | Except.ok u => recordUser s1 u res
            | Except.error _ => s1
          else s1,
        (env.Do w (verifyRequest req token)).2) := by
  unfold verifyEndpoint
  simp only [hreq]
  rcases hdo : env.Do w (verifyRequest req token) with ⟨_ | res, w1⟩
  · rfl
  · simp only [is2xx, decide_eq_true_eq]
    split_ifs
    · cases env.decodeUser res.Body <;> rfl
    · rfl

/-- The account metadata after the loop over the endpoints are those of the
last answer that verifies. -/
theorem foldl_verifyEndpoint_account {σ : Type} (env : Env σ) (token : Text) (k : Text)
    (f : userRes → Text)
    (hk : ∀ (s1 : Result) (u : userRes) (res : http.Response),
      mapGet (recordUser s1 u res).ExtraData k = some (f u)) :
    ∀ (eps : List Text) (s1 : Result) (w : σ),
      mapGet (eps.foldl (verifyEndpoint env token) (s1, w)).1.ExtraData k
        = match lastAccount env (exchange env w (requests env token eps)) with
          | some u => some (f u)
          | none => mapGet s1.ExtraData k := by
  intro eps
  induction eps with
  | nil => intro s1 w; rfl
  | cons url eps ih =>
    intro s1 w
    simp only [List.foldl_cons]
    cases hreq : NewRequestWithContext env "GET".toList (url ++ "/user".toList) with
    | error e =>
      have hs : verifyEndpoint env token (s1, w) url = (s1, w) := by
        unfold verifyEndpoint; simp only [hreq]
      have hr : requests env token (url :: eps) = requests env token eps := by
        simp only [requests, List.filterMap_cons, hreq]
      rw [hs, hr]
      exact ih s1 w
    | ok req =>
      have hr : requests env token (url :: eps)
          = verifyRequest req token :: requests env token eps := by
        simp only [requests, List.filterMap_cons, hreq]
      rw [hr, verifyEndpoint_step env token s1 w url req hreq, ih]
      simp only [exchange, lastAccount]
      cases lastAccount env
          (exchange env (env.Do w (verifyRequest req token)).2 (requests env token eps)) with
      | some u2 => rfl
      | none =>
        simp only
        cases (env.Do w (verifyRequest req token)).1 with
        | error e => rfl
        | ok res =>
          simp only
          split_ifs
          · cases env.decodeUser res.Body with
            | error e => rfl
            | ok u => exact hk s1 u res
          · rfl

/-- Where no answer verifies, the loop over the endpoints leaves the finding
as it was. -/
theorem foldl_verifyEndpoint_none {σ : Type} (sc : Scanner) (env : Env σ) (token : Text) :
    ∀ (eps : List Text) (s1 : Result) (w : σ),
      (exchange env w (requests env token eps)).any
          (Detector.verifiedBy (Detector.github_old sc) env) = false →
      (eps.foldl (verifyEndpoint env token) (s1, w)).1 = s1 := by
  intro eps
  induction eps with
  | nil => intro s1 w _; rfl
  | cons url eps ih =>
    intro s1 w h
    simp only [List.foldl_cons]
    cases hreq : NewRequestWithContext env "GET".toList (url ++ "/user".toList) with
    | error e =>
      have hs : verifyEndpoint env token (s1, w) url = (s1, w) := by
        unfold verifyEndpoint; simp only [hreq]
      have hr : requests env token (url :: eps) = requests env token eps := by
        simp only [requests, List.filterMap_cons, hreq]
      rw [hs]
      rw [hr] at h
      exact ih s1 w h
    | ok req =>
      have hr : requests env token (url :: eps)
          = verifyRequest req token :: requests env token eps := by
        simp only [requests, List.filterMap_cons, hreq]
      rw [hr] at h
      simp only [exchange, List.any_cons, Bool.or_eq_false_iff] at h
      rw [verifyEndpoint_step env token s1 w url req hreq]
      have hstep : (match (env.Do w (verifyRequest req token)).1 with
          | Except.error _ => s1
          | Except.ok res =>
            if is2xx res.StatusCode then
              match env.decodeUser res.Body with
              | Except.ok u => recordUser s1 u res
              | Except.error _ => s1
            else s1) = s1 := by
        have h1 := h.1
        cases hdo : (env.Do w (verifyRequest req token)).1 with
        | error e => rfl
        | ok res =>
          rw [hdo] at h1
          simp only [Detector.verifiedBy] at h1
          simp only
          split_ifs with h2
          · rw [h2, Bool.true_and] at h1
            cases hdec : env.decodeUser res.Body with
            | error e => rfl
            | ok u => rw [hdec] at h1; exact absurd h1 (by simp)
          · rfl
      rw [hstep]
      exact ih s1 _ h.2

end github_old

namespace Detector
open regexp detectors

set_option maxRecDepth 100000 in
/-- C6 fails as stated: the endpoint answers the request of github_old with
status 200 and a body that is not JSON, and the finding is returned with
`Verified` false. -/
theorem unparsed_body_not_verified :
    FindAllStringSubmatch github_old.keyPat sample.githubChunk = [sample.githubMatch]
    ∧ ((Detector.github_old ⟨[]⟩).answers (sample.scripted [(200, "<html>".toList)]) 0
        sample.githubMatch).map answered2xx = [true]
    ∧ github_old.FromData ⟨[]⟩ (sample.scripted [(200, "<html>".toList)]) true 0
        sample.githubChunk = (([github_old.fresh sample.token40], none), 1)
    ∧ (github_old.fresh sample.token40).Verified = false := by
  decide

/-- C6, as amended: for github_old called with verification, the finding of a
candidate that the false-positive filter lets through has `Verified` true
exactly when some endpoint answers with a status code in 200..299 and a body
that decodes; where no answer is of that kind, in particular where every 2xx
answer has a body that cannot be parsed, the finding is the one built before
verification: not verified, and without identity metadata. -/
theorem github_verified_iff_decoded {σ : Type} (sc : github_old.Scanner) (env : Env σ)
    (w : σ) (data : Text) (pre post : List (List Text)) (m : List Text)
    (hm : FindAllStringSubmatch github_old.keyPat data = pre ++ m :: post)
    (hfp : isFalsePositive env (m.getD 1 []) = false) :
    ∃ r ∈ (github_old.FromData sc env true w data).1.1, r.Raw = m.getD 1 []
      ∧ r.Verified
          = ((github_old sc).answers env ((github_old sc).worldAt env true w pre) m).any
              ((github_old sc).verifiedBy env)
      ∧ (((github_old sc).answers env ((github_old sc).worldAt env true w pre) m).any
            ((github_old sc).verifiedBy env) = false →
          r = github_old.fresh (m.getD 1 [])) := by
  have hmem : m ∈ FindAllStringSubmatch github_old.keyPat data := by rw [hm]; simp
  have hl := FindAllStringSubmatch_length _ _ _ hmem
  have hpre := github_old.specific_filter_passes env data m hmem
  obtain ⟨h1, _, h3⟩ := github_old.afterVerify_fields sc env true
    ((github_old sc).worldAt env true w pre) (m.getD 1 [])
  rw [Bool.true_and] at h3
  have hr : (github_old.candidate sc env true ((github_old sc).worldAt env true w pre) m).1
      = some (github_old.afterVerify sc env true
          ((github_old sc).worldAt env true w pre) (m.getD 1 [])).1 := by
    rw [github_old.candidate_eq_github sc env true _ m hl hpre]
    simp only [hfp, Bool.and_false, Bool.false_eq_true, if_false]
  refine ⟨_, ?_, h1, h3, ?_⟩
  · have := forEachMatch_mem (github_old.candidate sc env true) pre post m w _ hr
    rw [← hm] at this
    exact this
  · intro hnone
    exact github_old.foldl_verifyEndpoint_none sc env (m.getD 1 []) _ _ _ hnone

set_option maxRecDepth 100000 in
/-- Witness of C6 as amended: the default endpoint answers 200 with a body that
is not JSON. -/
theorem github_verified_iff_decoded_witness :
    FindAllStringSubmatch github_old.keyPat sample.githubChunk = [] ++ sample.githubMatch :: []
    ∧ isFalsePositive (sample.scripted [(200, "<html>".toList)]) (sample.githubMatch.getD 1 [])
        = false
    ∧ ∃ r ∈ (github_old.FromData ⟨[]⟩ (sample.scripted [(200, "<html>".toList)]) true 0
          sample.githubChunk).1.1,
        r.Raw = sample.githubMatch.getD 1 []
        ∧ r.Verified
          = ((github_old ⟨[]⟩).answers (sample.scripted [(200, "<html>".toList)])
              ((github_old ⟨[]⟩).worldAt (sample.scripted [(200, "<html>".toList)]) true 0 [])
              sample.githubMatch).any
              ((github_old ⟨[]⟩).verifiedBy (sample.scripted [(200, "<html>".toList)]))
        ∧ (((github_old ⟨[]⟩).answers (sample.scripted [(200, "<html>".toList)])
              ((github_old ⟨[]⟩).worldAt (sample.scripted [(200, "<html>".toList)]) true 0 [])
              sample.githubMatch).any
              ((github_old ⟨[]⟩).verifiedBy (sample.scripted [(200, "<html>".toList)])) = false →
            r = github_old.fresh (sample.githubMatch.getD 1 [])) :=
  ⟨by decide, by decide,
    github_verified_iff_decoded ⟨[]⟩ (sample.scripted [(200, "<html>".toList)]) 0
      sample.githubChunk [] [] sample.githubMatch (by decide) (by decide)⟩

set_option maxRecDepth 100000 in
/-- C10 fails as stated: with two endpoints of which the first answers 200 with
a body that decodes and the second, the last attempted, answers 401, the finding
keeps `Verified` true and the account of the first endpoint. -/
theorem earlier_endpoint_kept :
    FindAllStringSubmatch github_old.keyPat sample.githubChunk = [sample.githubMatch]
    ∧ ((Detector.github_old sample.twoEndpoints).answers
          (sample.scripted [(200, "{}".toList), (401, [])]) 0 sample.githubMatch).map
        ((Detector.github_old sample.twoEndpoints).verifiedBy
          (sample.scripted [(200, "{}".toList), (401, [])])) = [true, false]
    ∧ github_old.FromData sample.twoEndpoints (sample.scripted [(200, "{}".toList), (401, [])])
        true 0 sample.githubChunk = (([sample.aliceFinding], none), 2)
    ∧ sample.aliceFinding.Verified = true
    ∧ mapGet sample.aliceFinding.ExtraData "username".toList = some "alice".toList := by
  decide

theorem requests_of_endpoints {σ : Type} (env : Env σ) (token : Text)
    (hurl : ∀ url, env.urlError url = none) (urls : List Text) :
    github_old.requests env token urls
      = urls.map (fun url =>
          github_old.verifyRequest
            { Method := "GET".toList, URL := url ++ "/user".toList, Header := [] } token) := by
  induction urls with
  | nil => rfl
  | cons url urls ih =>
    have hreq : NewRequestWithContext env "GET".toList (url ++ "/user".toList)
        = Except.ok { Method := "GET".toList, URL := url ++ "/user".toList, Header := [] } := by
      simp only [NewRequestWithContext, hurl]
    have ih2 : List.filterMap (fun url =>
        match NewRequestWithContext env "GET".toList (url ++ "/user".toList) with
        | Except.ok req => some (github_old.verifyRequest req token)
        | Except.error _ => none) urls = _ := ih
    simp only [github_old.requests, List.filterMap_cons, hreq, List.map_cons, ih2]

/-- C10, as amended: for github_old called with verification over a list of
endpoints, every endpoint whose URL parses is queried in order with
`GET <url>/user`, and the outcomes accumulate in the finding: `Verified` is
true exactly when some endpoint answered 2xx with a body that decodes, whether
or not a later endpoint answers otherwise, and the metadata `username`, `url`
and `account_type` are those of the last endpoint that answered so. -/
theorem github_endpoints_accumulate {σ : Type} (sc : github_old.Scanner) (env : Env σ)
    (w : σ) (data : Text) (pre post : List (List Text)) (m : List Text) (r : Result)
    (hm : FindAllStringSubmatch github_old.keyPat data = pre ++ m :: post)
    (hr : (github_old.candidate sc env true ((github_old sc).worldAt env true w pre) m).1
      = some r) :
    (github_old.candidate sc env true ((github_old sc).worldAt env true w pre) m).2
        = worldAfter env ((github_old sc).worldAt env true w pre)
            (github_old.requests env (m.getD 1 []) (Endpoints sc.endpoints github_old.DefaultEndpoint))
    ∧ ((∀ url, env.urlError url = none) →
        github_old.requests env (m.getD 1 []) (Endpoints sc.endpoints github_old.DefaultEndpoint)
          = (Endpoints sc.endpoints github_old.DefaultEndpoint).map (fun url =>
              github_old.verifyRequest
                { Method := "GET".toList, URL := url ++ "/user".toList, Header := [] }
                (m.getD 1 [])))
    ∧ r ∈ (github_old.FromData sc env true w data).1.1
    ∧ r.Verified
        = ((github_old sc).answers env ((github_old sc).worldAt env true w pre) m).any
            ((github_old sc).verifiedBy env)
    ∧ (∀ u, github_old.lastAccount env
          ((github_old sc).answers env ((github_old sc).worldAt env true w pre) m) = some u →
        mapGet r.ExtraData "username".toList = some u.Login
          ∧ mapGet r.ExtraData "url".toList = some u.UserURL
          ∧ mapGet r.ExtraData "account_type".toList = some u.Type') := by
  have hmem : m ∈ FindAllStringSubmatch github_old.keyPat data := by rw [hm]; simp
  have hl := FindAllStringSubmatch_length _ _ _ hmem
  have hpre := github_old.specific_filter_passes env data m hmem
  obtain ⟨_, _, h3⟩ := github_old.afterVerify_fields sc env true
    ((github_old sc).worldAt env true w pre) (m.getD 1 [])
  rw [Bool.true_and] at h3
  have hin := forEachMatch_mem (github_old.candidate sc env true) pre post m w r hr
  rw [← hm] at hin
  rw [github_old.candidate_eq_github sc env true _ m hl hpre] at hr ⊢
  simp only at hr ⊢
  have hrr : r = (github_old.afterVerify sc env true
      ((github_old sc).worldAt env true w pre) (m.getD 1 [])).1 := by
    split_ifs at hr
    simp only [Option.some.injEq] at hr
    exact hr.symm
  refine ⟨?_, fun hurl => requests_of_endpoints env _ hurl _, hin, ?_, ?_⟩
  · exact (github_old.foldl_verifyEndpoint sc env (m.getD 1 []) _ _ _).1
  · rw [hrr]; exact h3
  · intro u hu
    have hacc := fun k f hk =>
      github_old.foldl_verifyEndpoint_account env (m.getD 1 []) k f hk
        (Endpoints sc.endpoints github_old.DefaultEndpoint) (github_old.fresh (m.getD 1 []))
        ((github_old sc).worldAt env true w pre)
    have hu2 : github_old.lastAccount env
        (exchange env ((github_old sc).worldAt env true w pre)
          (github_old.requests env (m.getD 1 [])
            (Endpoints sc.endpoints github_old.DefaultEndpoint))) = some u := hu
    rw [hrr]
    simp only [github_old.afterVerify, if_true]
    refine ⟨?_, ?_, ?_⟩
    · rw [hacc "username".toList (fun u => u.Login)
        (fun s1 u res => (github_old.recordUser_account s1 u res).1), hu2]
    · rw [hacc "url".toList (fun u => u.UserURL)
        (fun s1 u res => (github_old.recordUser_account s1 u res).2.1), hu2]
    · rw [hacc "account_type".toList (fun u => u.Type')
        (fun s1 u res => (github_old.recordUser_account s1 u res).2.2), hu2]

set_option maxRecDepth 100000 in
/-- Witness of C10 as amended: two endpoints, the first answering 200 with a
JSON body, the second 401. -/
theorem github_endpoints_accumulate_witness :
    FindAllStringSubmatch github_old.keyPat sample.githubChunk = [] ++ sample.githubMatch :: []
    ∧ (github_old.candidate sample.twoEndpoints (sample.scripted [(200, "{}".toList), (401, [])])
        true 0 sample.githubMatch).1 = some sample.aliceFinding
    ∧ sample.aliceFinding
        ∈ (github_old.FromData sample.twoEndpoints
            (sample.scripted [(200, "{}".toList), (401, [])]) true 0 sample.githubChunk).1.1
    ∧ sample.aliceFinding.Verified
        = ((github_old sample.twoEndpoints).answers
            (sample.scripted [(200, "{}".toList), (401, [])]) 0 sample.githubMatch).any
            ((github_old sample.twoEndpoints).verifiedBy
              (sample.scripted [(200, "{}".toList), (401, [])])) :=
  ⟨by decide, by decide,
    (github_endpoints_accumulate sample.twoEndpoints
      (sample.scripted [(200, "{}".toList), (401, [])]) 0 sample.githubChunk [] []
      sample.githubMatch sample.aliceFinding (by decide) (by decide)).2.2.1,
    (github_endpoints_accumulate sample.twoEndpoints
      (sample.scripted [(200, "{}".toList), (401, [])]) 0 sample.githubChunk [] []
      sample.githubMatch sample.aliceFinding (by decide) (by decide)).2.2.2.1⟩

end Detector
